import Mathlib

/-!
Verification of the Sigil HTTP framework request-dispatch core.

This file gives a shallow embedding, in Lean, of the parts of the Sigil
source that the verified properties talk about: the JS-object maps used
for headers, the `IncomingHeaders` container with its cookie side
structure, the response-envelope constructors, the default response
template, the `$sendResponse` / `$incomingMessageHandlerImpl` dispatch
pipeline, the body classifier and its handlers, the route-draft cloning
and dispatch-time validation of `RouteRequests`, host / client-IP
derivation, and the processed-request cache.  Stateful JS code is
embedded as explicit state passing, fallible constructors as `Except`,
and JS objects as insertion-ordered association lists.
-/

namespace Sigil

/-! ## JS objects as insertion-ordered association lists

JS plain objects (`Record<string, T>`) keep insertion order and have
unique keys; assignment replaces the value in place, `Object.assign`
copies the source keys onto the target in order.  We model them as
association lists with exactly those operations (replacement rewrites
the first matching entry, which on the unique-key lists JS objects
produce is the only matching entry). -/

/-- First value stored under key `k`, like `m[k]` on a JS object. -/
def objGet {α : Type} (m : List (String × α)) (k : String) : Option α :=
  match m with
  | [] => none
  | (k₀, v) :: rest => if k₀ = k then some v else objGet rest k

/-- Assignment `m[k] = v`: replace in place when present, append otherwise. -/
def objSet {α : Type} (m : List (String × α)) (k : String) (v : α) :
    List (String × α) :=
  match m with
  | [] => [(k, v)]
  | (k₀, v₀) :: rest => if k₀ = k then (k, v) :: rest else (k₀, v₀) :: objSet rest k v

/-- `Object.assign(target, source)`: copy every source entry onto the target. -/
def objAssign {α : Type} (target source : List (String × α)) :
    List (String × α) :=
  source.foldl (fun acc p => objSet acc p.1 p.2) target

/-- `delete m[k]`. -/
def objDelete {α : Type} (m : List (String × α)) (k : String) :
    List (String × α) :=
  match m with
  | [] => []
  | (k₀, v₀) :: rest => if k₀ = k then objDelete rest k else (k₀, v₀) :: objDelete rest k

theorem objGet_objSet_self {α : Type} (m : List (String × α)) (k : String) (v : α) :
    objGet (objSet m k v) k = some v := by
  induction m with
  | nil => simp [objSet, objGet]
  | cons p rest ih =>
    obtain ⟨k₀, v₀⟩ := p
    by_cases h : k₀ = k
    · simp [objSet, objGet, h]
    · simp [objSet, objGet, h, ih]

theorem objGet_objSet_ne {α : Type} (m : List (String × α)) (k k' : String) (v : α)
    (h : k' ≠ k) : objGet (objSet m k v) k' = objGet m k' := by
  induction m with
  | nil => simp [objSet, objGet, Ne.symm h]
  | cons p rest ih =>
    obtain ⟨k₀, v₀⟩ := p
    by_cases hk : k₀ = k
    · subst hk
      simp [objSet, objGet, Ne.symm h]
    · by_cases hk' : k₀ = k'
      · subst hk'
        rw [objSet, if_neg hk]
        simp [objGet]
      · simp [objSet, objGet, hk, hk', ih]

theorem objGet_eq_none_of_not_mem {α : Type} (m : List (String × α)) (k : String)
    (h : k ∉ m.map Prod.fst) : objGet m k = none := by
  induction m with
  | nil => rfl
  | cons p rest ih =>
    obtain ⟨k₀, v₀⟩ := p
    simp only [List.map_cons, List.mem_cons, not_or] at h
    simp [objGet, Ne.symm h.1, ih h.2]

/-- Lookup through `Object.assign`: a key present in the (duplicate-free)
source resolves to the source value, any other key to the target value. -/
theorem objGet_objAssign {α : Type} (target source : List (String × α))
    (hnd : (source.map Prod.fst).Nodup) (k : String) :
    objGet (objAssign target source) k = ((objGet source k).or (objGet target k)) := by
  induction source generalizing target with
  | nil => simp [objAssign, objGet]
  | cons p rest ih =>
    obtain ⟨k₀, v₀⟩ := p
    simp only [List.map_cons, List.nodup_cons] at hnd
    have step : objAssign target ((k₀, v₀) :: rest) = objAssign (objSet target k₀ v₀) rest := rfl
    rw [step, ih _ hnd.2]
    by_cases hk : k₀ = k
    · subst hk
      have hnone : objGet rest k₀ = none := objGet_eq_none_of_not_mem _ _ hnd.1
      simp [hnone, objGet, objGet_objSet_self]
    · simp [objGet, hk, objGet_objSet_ne _ _ _ _ (Ne.symm hk)]

/-! ## JS values

A small model of JS runtime values: enough to express truthiness and the
`typeof v === "object"` test used by the dispatch-time validation. -/

inductive JsValue : Type where
  | undef : JsValue
  | null : JsValue
  | bool (b : Bool) : JsValue
  | num (n : Int) : JsValue
  | str (s : String) : JsValue
  | obj (fields : List (String × JsValue)) : JsValue
  | arr (elems : List JsValue) : JsValue
  | buf (bytes : List Nat) : JsValue
deriving Inhabited

/-- JS truthiness: `undefined`, `null`, `false`, `0`, `""` are falsy. -/
def JsValue.truthy : JsValue → Bool
  | .undef => false
  | .null => false
  | .bool b => b
  | .num n => decide (n ≠ 0)
  | .str s => decide (s ≠ "")
  | .obj _ => true
  | .arr _ => true
  | .buf _ => true

/-- Whether `typeof v === "object"` (true for `null`, objects, arrays and buffers). -/
def JsValue.typeofObject : JsValue → Bool
  | .null => true
  | .obj _ => true
  | .arr _ => true
  | .buf _ => true
  | _ => false

/-- `Buffer.isBuffer(v)`. -/
def JsValue.isBuffer : JsValue → Bool
  | .buf _ => true
  | _ => false

/-! ## JS string primitives

The source manipulates strings with `split`, `trim`, `toLowerCase`,
`startsWith` / `endsWith`, `slice` and `join`.  These are modelled by
structurally recursive functions over the character list so that every
definition evaluates inside the kernel. -/

/-- JS `\s`-style whitespace. -/
def isJsWhitespace (c : Char) : Bool :=
  c = ' ' ∨ c = '\t' ∨ c = '\n' ∨ c = '\r' ∨ c = '\x0b' ∨ c = '\x0c'

/-- `String.prototype.split` with a one-character separator. -/
def splitOnChar (sep : Char) : List Char → List (List Char)
  | [] => [[]]
  | c :: cs =>
    let rest := splitOnChar sep cs
    if c = sep then [] :: rest
    else
      match rest with
      | r :: rs => (c :: r) :: rs
      | [] => [[c]]

def jsSplit (sep : Char) (s : String) : List String :=
  (splitOnChar sep s.data).map String.mk

/-- `String.prototype.trim`. -/
def jsTrim (s : String) : String :=
  String.mk (((s.data.dropWhile isJsWhitespace).reverse.dropWhile isJsWhitespace).reverse)

/-- `String.prototype.toLowerCase` (ASCII, which covers every name the
source lowercases). -/
def lowerString (s : String) : String :=
  String.mk (s.data.map Char.toLower)

/-- `String.prototype.startsWith`. -/
def jsStartsWith (s pat : String) : Bool :=
  s.data.take pat.data.length = pat.data

/-- `String.prototype.endsWith`. -/
def jsEndsWith (s pat : String) : Bool :=
  s.data.reverse.take pat.data.length = pat.data.reverse

/-- `String.prototype.slice(n)` for a non-negative start. -/
def dropChars (n : Nat) (s : String) : String :=
  String.mk (s.data.drop n)

/-- `Array.prototype.join(sep)`. -/
def joinWithSep (sep : String) : List String → String
  | [] => ""
  | [x] => x
  | x :: xs => x ++ sep ++ joinWithSep sep xs

/-! ## decodeURIComponent

`IncomingHeaders.#parseCookie` runs cookie values through the platform
builtin `decodeURIComponent`.  We model percent-escapes at the ASCII
level: `%XX` with two hex digits becomes the character with that code,
other characters pass through unchanged (multi-byte UTF-8 escape
sequences and the `URIError` on malformed input are outside the values
any theorem below exercises; on escape-free strings the model agrees
exactly with the builtin, both being the identity). -/

def hexDigitVal (c : Char) : Option Nat :=
  if '0' ≤ c ∧ c ≤ '9' then some (c.toNat - '0'.toNat)
  else if 'a' ≤ c ∧ c ≤ 'f' then some (c.toNat - 'a'.toNat + 10)
  else if 'A' ≤ c ∧ c ≤ 'F' then some (c.toNat - 'A'.toNat + 10)
  else none

def percentDecodeChars : List Char → List Char
  | [] => []
  | '%' :: c₁ :: c₂ :: rest =>
    match hexDigitVal c₁, hexDigitVal c₂ with
    | some h₁, some h₂ => Char.ofNat (16 * h₁ + h₂) :: percentDecodeChars rest
    | _, _ => '%' :: percentDecodeChars (c₁ :: c₂ :: rest)
  | c :: rest => c :: percentDecodeChars rest

def decodeURIComponent (s : String) : String :=
  String.mk (percentDecodeChars s.data)

/-! ## IncomingHeaders (src/requests/containers/incoming-headers.ts)

A case-insensitive header multimap `#map : name → string[]` (keys stored
lowercased) with a cookie name→value side map `#cookies`, kept in a
state record.  `set`/`append`/`del` mirror the class methods, including
the cookie-map update on the `cookie` key. -/

structure IncomingHeaders : Type where
  map : List (String × List String)
  cookies : List (String × String)
deriving Inhabited, DecidableEq

namespace IncomingHeaders

def empty : IncomingHeaders := ⟨[], []⟩

/-- `#parseCookie(line)`: split on `;`, take the part before the first
`=` as the name (skipping empty names), percent-decode the rest, and
assign each pair into the existing cookie map. -/
def parseCookieInto (cookies : List (String × String)) (line : String) :
    List (String × String) :=
  (jsSplit ';' line).foldl
    (fun cs pair =>
      let parts := jsSplit '=' (jsTrim pair)
      let rawKey := parts.headD ""
      if rawKey = "" then cs
      else objSet cs rawKey (decodeURIComponent (joinWithSep "=" parts.tail)))
    cookies

/-- `set(name, value)`: replace the header, reparsing cookies on `cookie`. -/
def set (st : IncomingHeaders) (name value : String) : IncomingHeaders :=
  let key := lowerString name
  { map := objSet st.map key [value]
    cookies := if key = "cookie" then parseCookieInto st.cookies value else st.cookies }

/-- `append(name, value)`: push onto the value list, reparsing cookies on `cookie`. -/
def append (st : IncomingHeaders) (name value : String) : IncomingHeaders :=
  let key := lowerString name
  { map :=
      match objGet st.map key with
      | some vs => objSet st.map key (vs ++ [value])
      | none => objSet st.map key [value]
    cookies := if key = "cookie" then parseCookieInto st.cookies value else st.cookies }

/-- `delete(name)`: drop the header, clearing the cookie map on `cookie`. -/
def del (st : IncomingHeaders) (name : String) : IncomingHeaders :=
  let key := lowerString name
  { map := objDelete st.map key
    cookies := if key = "cookie" then [] else st.cookies }

/-- `get(name)`: first value of the lowercased key, or `null`. -/
def get (st : IncomingHeaders) (name : String) : Option String :=
  (objGet st.map (lowerString name)).bind List.head?

/-- A header value in a Node `Dict` header object: string or string array. -/
inductive HdrVal : Type where
  | str (s : String) : HdrVal
  | arr (l : List String) : HdrVal
deriving Inhabited, DecidableEq

/-- The constructor branch for a `Dict` argument: append every value. -/
def ofDict (d : List (String × HdrVal)) : IncomingHeaders :=
  d.foldl
    (fun st p =>
      match p.2 with
      | .str s => st.append p.1 s
      | .arr l => l.foldl (fun st' s => st'.append p.1 s) st)
    empty

/-- The constructor branch for a flat `rawHeaders` array: consecutive
name/value pairs are appended in order (a trailing odd element, which the
source would append with an `undefined` value, does not occur on real
`rawHeaders` and is dropped here). -/
def pairsOfRaw : List String → List (String × String)
  | k :: v :: rest => (k, v) :: pairsOfRaw rest
  | _ => []

def ofRaw (raw : List String) : IncomingHeaders :=
  (pairsOfRaw raw).foldl (fun st p => st.append p.1 p.2) empty

end IncomingHeaders

/-! ## Response envelopes

`BasicResponse` (sigil-response.ts) validates the status code at
construction; `SigilResponse`, `RawResponse`, `FileResponse`,
`StreamResponse`, `Redirect` and `MiddlewareModificationRequest` are its
subclasses.  Fallible constructors are embedded as `Except String`
(`.error` models the thrown construction error). -/

/-- The data held by a constructed `BasicResponse`. -/
structure BasicResponseData : Type where
  content : JsValue
  code : Int
  headers : IncomingHeaders

/-- `BasicResponse` constructor: `code` defaults to 200, codes outside
100..599 throw, a raw header record is wrapped in `IncomingHeaders`. -/
def BasicResponse.make (content : JsValue) (code : Option Int)
    (headers : Option (List (String × IncomingHeaders.HdrVal))) :
    Except String BasicResponseData :=
  let c := code.getD 200
  if c < 100 ∨ c > 599 then .error ("Invalid response code: " ++ toString c)
  else .ok ⟨content, c, IncomingHeaders.ofDict (headers.getD [])⟩

/-- A constructed response envelope, tagged with the class it was built by. -/
inductive Resp : Type where
  | sigil (content : JsValue) (code : Int) (headers : IncomingHeaders)
  | raw (content : JsValue) (code : Int) (headers : IncomingHeaders)
  | file (content : JsValue) (code : Int) (headers : IncomingHeaders)
  | stream (code : Int) (headers : IncomingHeaders)
  | redirect (code : Int) (headers : IncomingHeaders)
  | modification (code : Int) (headers : IncomingHeaders)

/-- The status code carried by an envelope. -/
def Resp.code : Resp → Int
  | .sigil _ c _ => c
  | .raw _ c _ => c
  | .file _ c _ => c
  | .stream c _ => c
  | .redirect c _ => c
  | .modification c _ => c

/-- The content carried by an envelope (`undefined` for streams, whose
content is the opaque readable). -/
def Resp.content : Resp → JsValue
  | .sigil v _ _ => v
  | .raw v _ _ => v
  | .file v _ _ => v
  | .stream _ _ => .undef
  | .redirect _ _ => .undef
  | .modification _ _ => .null

/-- The headers carried by an envelope. -/
def Resp.headers : Resp → IncomingHeaders
  | .sigil _ _ h => h
  | .raw _ _ h => h
  | .file _ _ h => h
  | .stream _ h => h
  | .redirect _ h => h
  | .modification _ h => h

/-- `SigilResponse` constructor: passes its arguments to `BasicResponse`. -/
def SigilResponse.make (content : JsValue) (code : Option Int)
    (headers : Option (List (String × IncomingHeaders.HdrVal))) :
    Except String Resp :=
  match BasicResponse.make content code headers with
  | .error e => .error e
  | .ok base => .ok (.sigil base.content base.code base.headers)

/-- `RawResponse` constructor: when no headers are given and the body is a
non-Buffer object, defaults the content type to JSON. -/
def RawResponse.make (body : JsValue)
    (headers : Option (List (String × IncomingHeaders.HdrVal)))
    (code : Option Int) : Except String Resp :=
  let baseResult :=
    if headers.isNone ∧ body.typeofObject ∧ ¬ body.isBuffer then
      BasicResponse.make body (some (code.getD 200))
        (some [("content-type", .str "application/json")])
    else
      BasicResponse.make body (some (code.getD 200)) headers
  match baseResult with
  | .error e => .error e
  | .ok base => .ok (.raw base.content base.code base.headers)

/-- `StreamResponse` constructor: `super(undefined, code)` then sets every
given header on the fresh container (the stream itself is opaque here). -/
def StreamResponse.make (code : Option Int)
    (headers : List (String × String)) : Except String Resp :=
  match BasicResponse.make .undef (some (code.getD 200)) none with
  | .error e => .error e
  | .ok base =>
    .ok (.stream base.code (headers.foldl (fun st p => st.set p.1 p.2) base.headers))

/-- `FileResponse` constructor: takes no status code (the `code` field is
fixed at 200); sets `content-encoding` (default `utf8`) and, when given,
`content-type`, then calls `super(path, 200, headers)`. -/
def FileResponse.make (path : String) (contentType : Option String)
    (encoding : Option String) : Except String Resp :=
  let hdrs₀ := IncomingHeaders.empty.set "content-encoding" (encoding.getD "utf8")
  let hdrs :=
    match contentType with
    | some ct => hdrs₀.set "content-type" ct
    | none => hdrs₀
  let c := (200 : Int)
  if c < 100 ∨ c > 599 then
    Except.error ("Invalid response code: " ++ toString c)
  else
    Except.ok (.file (.str path) c hdrs)

/-- `Redirect` constructor: `super(undefined, code ?? 302, {location: to})`
(so the base range check runs on the defaulted code), then codes outside
300..399 throw and an omitted code leaves the field default 302. -/
def Redirect.make (toUrl : String) (code : Option Int) : Except String Resp :=
  match BasicResponse.make .undef (some (code.getD 302))
      (some [("location", .str toUrl)]) with
  | .error e => .error e
  | .ok base =>
    match code with
    | some c =>
      if c < 300 ∨ c > 399 then Except.error ("Invalid redirect code: " ++ toString c)
      else .ok (.redirect c base.headers)
    | none => .ok (.redirect 302 base.headers)

/-- `MiddlewareModificationRequest` constructor options. -/
structure ModificationOptions : Type where
  headers : Option (List (String × IncomingHeaders.HdrVal)) := none
  code : Option Int := none

/-- `MiddlewareModificationRequest` constructor:
`super(null, options.code, options.headers)` — an omitted code becomes
the `BasicResponse` default 200. -/
def MiddlewareModificationRequest.make (options : ModificationOptions) :
    Except String Resp :=
  match BasicResponse.make .null options.code options.headers with
  | .error e => .error e
  | .ok base => .ok (.modification base.code base.headers)

/-! ## Exception (src/responses/exceptions/exception.ts)

`Exception extends Error`; its constructor never throws: an out-of-range
code is replaced by 500 rather than rejected. -/

/-- `classNameToReadable`: space before each capital, trim, capitalize the
first character and lowercase the rest. -/
def classNameToReadable (name : String) : String :=
  let spaced := String.mk (name.data.foldr
    (fun c acc => if c.isUpper then ' ' :: c :: acc else c :: acc) [])
  let readable := jsTrim spaced
  match readable.data with
  | [] => ""
  | c :: rest => String.mk (c.toUpper :: (lowerString (String.mk rest)).data)

/-- A `message` option: `string[] | string`. -/
inductive ExcMessage : Type where
  | list (l : List String) : ExcMessage
  | str (s : String) : ExcMessage

/-- `IExceptionOptions`. -/
structure ExceptionOptions : Type where
  code : Int
  name : Option String := none
  message : Option ExcMessage := none
  headers : List (String × IncomingHeaders.HdrVal) := []

/-- The data held by a constructed `Exception`. -/
structure ExceptionData : Type where
  name : String
  message : String
  code : Int
  headers : IncomingHeaders

/-- `Exception` constructor: the message falls back through the humanized
name to a generic text (JS truthiness: an empty message string also falls
back), the code is clamped to 500 when outside 100..599, the name
defaults to `UnknownException`.  Construction always succeeds. -/
def Exception.make (options : ExceptionOptions) : ExceptionData :=
  let msgProvided :=
    match options.message with
    | none => false
    | some (.str s) => s ≠ ""
    | some (.list _) => true
  let msg :=
    if msgProvided then
      match options.message with
      | some (.list l) => joinWithSep " " l
      | some (.str s) => s
      | none => ""
    else
      match options.name with
      | some n => classNameToReadable n
      | none => "There was an unknown exception"
  { name := options.name.getD "UnknownException"
    message := msg
    code := if options.code ≥ 100 ∧ options.code ≤ 599 then options.code else 500
    headers := IncomingHeaders.ofDict options.headers }

/-- An `Error` value reaching `Exception.fromError`: either already an
`Exception` instance or a plain JS error with an optional `code` field. -/
inductive ErrLike : Type where
  | exception (e : ExceptionData) : ErrLike
  | jsError (name message : String) (code : Option Int) : ErrLike

/-- `Exception.fromError`: an `Exception` passes through, any other error
is wrapped with `code: error.code || 500`. -/
def Exception.fromError : ErrLike → ExceptionData
  | .exception e => e
  | .jsError n m c =>
    Exception.make
      { code := if c.getD 0 ≠ 0 then c.getD 0 else 500
        name := some n
        message := some (.str m)
        headers := [] }

/-- `NotFound` exception (responses/exceptions/index): code 404 with the
default resource-not-found message. -/
def NotFound.make (message : List String) : ExceptionData :=
  Exception.make
    { code := 404
      name := some "NotFound"
      message := some (.list
        (if message.length > 0 then message
         else ["The requested resource could not be found on the server."])) }

/-! ## Envelopes reaching `$sendResponse`

`$sendResponse` receives `SigilResponse | Exception`. -/

inductive Envelope : Type where
  | resp (r : Resp) : Envelope
  | exc (e : ExceptionData) : Envelope

def Envelope.code : Envelope → Int
  | .resp r => r.code
  | .exc e => e.code

/-- The mutation `response.code = modification.code`. -/
def Envelope.withCode : Envelope → Int → Envelope
  | .resp (.sigil v _ h), c => .resp (.sigil v c h)
  | .resp (.raw v _ h), c => .resp (.raw v c h)
  | .resp (.file v _ h), c => .resp (.file v c h)
  | .resp (.stream _ h), c => .resp (.stream c h)
  | .resp (.redirect _ h), c => .resp (.redirect c h)
  | .resp (.modification _ h), c => .resp (.modification c h)
  | .exc e, c => .exc { e with code := c }

/-! ## Wire headers

`res.writeHead` takes a plain JS object whose values are strings (from
the default template's error branch) or string arrays (from
`IncomingHeaders.link` maps); `Object.assign` merges such objects
key-wise. -/

/-- A wire-level header object value. -/
abbrev WireHeaders : Type := List (String × IncomingHeaders.HdrVal)

/-- `headers.link` viewed as a wire header object (array-valued entries). -/
def linkHeaders (h : IncomingHeaders) : WireHeaders :=
  h.map.map (fun p => (p.1, .arr p.2))

/-- A `modifiedOptions.headers` record (array values copied off link maps)
viewed as a wire header object. -/
def wireOfLink (m : List (String × List String)) : WireHeaders :=
  m.map (fun p => (p.1, .arr p.2))

/-- JS truthiness of `#map[key]?.[0]` on a wire header value. -/
def hdrValFirstTruthy : IncomingHeaders.HdrVal → Bool
  | .arr vs =>
    match vs.head? with
    | some v => v ≠ ""
    | none => false
  | .str s => s ≠ ""

/-! ## Default response template (sigil/misc/default-template.ts)

`defaultTemplate` maps a handler response to `{content, code, headers}`.
Inside `$sendResponse` the payload is always a constructed envelope, so
the `Buffer.isBuffer(payload)` tests are false there.  The
`JSON.stringify` rendering of the content is not modelled (no verified
property inspects the serialized body text); the structured value is
kept instead.  In the error branch, `{"content-type": …, ...payload.headers}`
spreads the own enumerable properties of the `IncomingHeaders` class
instance, of which there are none (both fields are private), so only the
JSON content type remains. -/

structure TemplateResult : Type where
  content : JsValue
  code : Int
  headers : WireHeaders

def defaultTemplate : Envelope → TemplateResult
  | .exc e =>
    { content := .obj [("error", .str e.name), ("content", .str e.message)]
      code := e.code
      headers := [("content-type", .str "application/json")] }
  | .resp r =>
    let headers := linkHeaders r.headers
    let headers :=
      if headers.isEmpty then objSet headers "content-type" (.str "application/json")
      else headers
    { content := .obj [("error", .null),
        ("content",
          match r.content with
          | .undef => .obj []
          | v => v)]
      code := r.code
      headers := headers }

/-! ## $sendResponse (sigil/sigil-request-processor.ts, lines 60-166)

The function is embedded as a pure computation of the wire write
`(statusCode, headers)` plus the list of access-log records it emits
(log lines of module `requests`; the extra error-level handler log for
5xx exceptions is a different record kind and not collected here).
`isReadable(content)` holds exactly for stream envelopes in this model,
since only `StreamResponse` carries a readable.  The response template
is the default one (`this.$responseTemplate` falls back to
`defaultTemplate` when no custom template is configured). -/

/-- `MiddlewareModificationRequestOptions` as accumulated by the pipeline
(`headers` copied off `IncomingHeaders.link` maps). -/
structure ModOptions : Type where
  headers : List (String × List String) := []
  code : Option Int := none

/-- The status line and headers passed to `res.writeHead`. -/
structure WireWrite : Type where
  code : Int
  headers : WireHeaders

/-- One access-log record: `{method, path, code, time}`. -/
structure LogRecord : Type where
  method : String
  path : String
  code : Int
  time : Int

structure SendResult : Type where
  wire : WireWrite
  logs : List LogRecord

/-- JS truthiness of `modification.code` (`if (modification.code)`). -/
def modCodeTruthy : Option Int → Bool
  | none => false
  | some c => decide (c ≠ 0)

/-- The opening `if (modification.code) response.code = modification.code`
of `$sendResponse`. -/
def applyModificationCode (response : Envelope) (modification : ModOptions) :
    Envelope :=
  match modification.code with
  | some c => if c ≠ 0 then response.withCode c else response
  | none => response

/-- The body of `$sendResponse` after the code override: the plugin
pre-send loop, the stream branch, the template/log step and the
per-variant writes. -/
def writeResponse (codeOnly : List Int) (pluginResult : Option Resp)
    (method url : String) (atNorm now : Int)
    (response : Envelope) (modification : ModOptions) : SendResult :=
  match pluginResult with
  | some result =>
    { wire := { code := result.code
                headers := objAssign (linkHeaders result.headers)
                  (wireOfLink modification.headers) }
      logs := [] }
  | none =>
    match response with
    | .resp (.stream code hdrs) =>
      let headers₁ := objAssign (linkHeaders hdrs) (wireOfLink modification.headers)
      let ctMissing : Bool :=
        match objGet headers₁ "content-type" with
        | some v => ! hdrValFirstTruthy v
        | none => true
      let headers₂ :=
        if ctMissing then objSet headers₁ "Content-Type" (.str "application/octet-stream")
        else headers₁
      { wire := { code := code, headers := headers₂ }, logs := [] }
    | _ =>
      let template := defaultTemplate response
      let log : LogRecord :=
        { method := method, path := url, code := response.code, time := now - atNorm }
      if template.code > 399 ∧ template.code ∈ codeOnly then
        { wire := { code := template.code, headers := wireOfLink modification.headers }
          logs := [log] }
      else
        match response with
        | .resp (.raw _ code hdrs) =>
          { wire := { code := code
                      headers := objAssign (linkHeaders hdrs) (wireOfLink modification.headers) }
            logs := [log] }
        | .resp (.file _ code hdrs) =>
          { wire := { code := code
                      headers := objAssign (linkHeaders hdrs) (wireOfLink modification.headers) }
            logs := [log] }
        | .exc e =>
          { wire := { code := e.code
                      headers := objAssign template.headers (wireOfLink modification.headers) }
            logs := [log] }
        | .resp (.redirect code hdrs) =>
          { wire := { code := code
                      headers := objAssign (linkHeaders hdrs) (wireOfLink modification.headers) }
            logs := [log] }
        | _ =>
          { wire := { code := template.code
                      headers := objAssign template.headers (wireOfLink modification.headers) }
            logs := [log] }

def sendResponse (codeOnly : List Int) (pluginResult : Option Resp)
    (method url : String) (atNorm now : Int)
    (response₀ : Envelope) (modification : ModOptions) : SendResult :=
  writeResponse codeOnly pluginResult method url atNorm now
    (applyModificationCode response₀ modification) modification

/-! ## $formatResponse and the middleware loop
(sigil/sigil-request-processor.ts, lines 191-275) -/

/-- A raw handler / middleware return value. -/
inductive HandlerRet : Type where
  | value (v : JsValue) : HandlerRet
  | resp (r : Resp) : HandlerRet
  | exc (e : ExceptionData) : HandlerRet
  | err (name message : String) (code : Option Int) : HandlerRet

/-- `$formatResponse`: errors become exceptions, redirects pass through,
file envelopes resolve their path against the file system (`readFile`
stands for the `fs.promises.readFile` collaborator, already composed with
the `path` resolution; `none` models a read failure), other
`SigilResponse` instances pass through, and any remaining plain value is
wrapped in a 200 `SigilResponse`. -/
def formatResponse (readFile : String → Option String) :
    HandlerRet → Envelope
  | .exc e => .exc (Exception.fromError (.exception e))
  | .err n m c => .exc (Exception.fromError (.jsError n m c))
  | .resp (.redirect code hdrs) => .resp (.redirect code hdrs)
  | .resp (.file content code hdrs) =>
    let filePath := match content with | .str s => s | _ => ""
    match readFile filePath with
    | some data => .resp (.file (.str data) code hdrs)
    | none => .exc (NotFound.make ["File at path " ++ filePath ++ " not found"])
  | .resp r => .resp r
  | .value v => .resp (.sigil v 200 IncomingHeaders.empty)

/-- The result of one global middleware invocation: `undefined` or a
returned value. -/
inductive MwResult : Type where
  | noop : MwResult
  | ret (v : HandlerRet) : MwResult

/-- What the middleware/dispatch section of `$incomingMessageHandlerImpl`
hands to `$sendResponse`. -/
structure PipelineOutcome : Type where
  sent : Envelope
  mod : ModOptions
  handlerInvoked : Bool

/-- The middleware loop and route dispatch of
`$incomingMessageHandlerImpl`: a middleware returning a value either
merges a modification request into `modifiedOptions` and continues, or
short-circuits to `$sendResponse` with an *empty* modification record;
after the loop, a route match runs the handler (its possibly-thrown
result is `route`), a miss sends `NotFound` — both with the accumulated
`modifiedOptions`. -/
def runMiddlewares (readFile : String → Option String) (acc : ModOptions) :
    List MwResult → Option HandlerRet → PipelineOutcome
  | [], route =>
    match route with
    | some hres =>
      { sent := formatResponse readFile hres, mod := acc, handlerInvoked := true }
    | none =>
      { sent := .exc (NotFound.make []), mod := acc, handlerInvoked := false }
  | mw :: rest, route =>
    match mw with
    | .noop => runMiddlewares readFile acc rest route
    | .ret v =>
      match formatResponse readFile v with
      | .resp (.modification code hdrs) =>
        runMiddlewares readFile
          { headers := objAssign acc.headers hdrs.map, code := some code } rest route
      | other => { sent := other, mod := {}, handlerInvoked := false }

/-- `$incomingMessageHandlerImpl` after a successful
`processRequestContent`, composed with `$sendResponse`: `atNorm` is the
`performance.now()` sample taken after the `onBeforeRequestReceived`
hooks and before request normalization. -/
def handleRequest (codeOnly : List Int) (readFile : String → Option String)
    (method url : String) (atNorm now : Int)
    (mws : List MwResult) (route : Option HandlerRet) : SendResult :=
  let o := runMiddlewares readFile {} mws route
  sendResponse codeOnly none method url atNorm now o.sent o.mod

/-! ## IncomingBody (src/requests/containers/incoming-body.ts)

One immutable byte buffer (kept here as its UTF-8 text) with lazily
computed views.  `JSON.parse` / `URLSearchParams` are platform builtins,
taken as parameters of the accessors. -/

structure IncomingBody : Type where
  buffer : String
deriving Inhabited, DecidableEq

/-- Constructing an `IncomingBody` from a `Buffer`: stored as-is. -/
def IncomingBody.ofBuffer (b : String) : IncomingBody := ⟨b⟩

/-- Constructing an `IncomingBody` from `null`:
`Buffer.from(jsonStringify(null))` stores the four bytes `null`
(`JSON.stringify(null) = "null"`). -/
def IncomingBody.ofNull : IncomingBody := ⟨"null"⟩

/-- `text()`: the buffer decoded as UTF-8. -/
def IncomingBody.text (b : IncomingBody) : String := b.buffer

/-- `json()`: `jsonParse(this.text())`, where `jp` is the platform
`JSON.parse` returning `none` on a parse failure; the wrapper turns a
failure into JS `null`. -/
def IncomingBody.json (jp : String → Option JsValue) (b : IncomingBody) : JsValue :=
  match jp b.text with
  | some v => v
  | none => .null

/-- `urlSearchParams()`: parses the *stored raw buffer* with the platform
`URLSearchParams` (the `parseQuery` parameter) — URL-decoding happens
only here, not at construction. -/
def IncomingBody.urlSearchParams (parseQuery : String → List (String × String))
    (b : IncomingBody) : List (String × String) :=
  parseQuery b.buffer

/-! ## Body classifier and handlers
(requests/request-processor.ts `processRequestContent`,
requests/handlers/buffer-handler.ts, binary-handler.ts,
urlencoded-form-handler.ts) -/

/-- One uploaded file (`IncomingFile` constructor options). -/
structure IncomingFileData : Type where
  key : String
  name : String
  originalName : String
  mimeType : String
  buffer : String
deriving Inhabited, DecidableEq

/-- A handler result `{body, files}`. -/
structure RequestProcessorResponse : Type where
  body : IncomingBody
  files : List IncomingFileData
deriving Inhabited, DecidableEq

/-- `SUPPORTED_METHODS`: the methods that may carry a body. -/
def SUPPORTED_METHODS : List String := ["POST", "PATCH", "PUT", "DELETE", "OPTIONS"]

/-- The parsing strategy `processRequestContent` selects. -/
inductive BodyStrategy : Type where
  | noParse : BodyStrategy
  | bufferParse : BodyStrategy
  | multipart : BodyStrategy
  | urlencoded : BodyStrategy
  | binary : BodyStrategy
deriving DecidableEq, Inhabited

/-- `req.headers["content-type"]?.split(";", 1)[0]?.trim()` guarded by
`needBody`. -/
def effectiveContentType (method : String) (contentTypeHeader : Option String) :
    Option String :=
  if method ∈ SUPPORTED_METHODS then
    contentTypeHeader.map (fun s => jsTrim ((jsSplit ';' s).headD s))
  else none

/-- The handler-selection logic of `processRequestContent`: no parsing
without a body-carrying method or a (truthy) content type; then the
text/json prefix-and-suffix rule, the exact-match switch, and the binary
default. -/
def chooseStrategy (method : String) (contentTypeHeader : Option String) :
    BodyStrategy :=
  match effectiveContentType method contentTypeHeader with
  | none => .noParse
  | some ct =>
    if ct = "" then .noParse
    else if jsStartsWith ct "text/" ∨ jsEndsWith ct "json" then .bufferParse
    else if ct = "application/json" then .bufferParse
    else if ct = "application/xml" then .bufferParse
    else if ct = "application/javascript" then .bufferParse
    else if ct = "multipart/form-data" then .multipart
    else if ct = "application/x-www-form-urlencoded" then .urlencoded
    else .binary

/-- `bufferHandler`: buffer the whole body (`readBody = none` models a
stream read error, which resolves to an empty `IncomingBody(null)`);
never produces files. -/
def bufferHandler (readBody : Option String) : RequestProcessorResponse :=
  match readBody with
  | none => { body := .ofNull, files := [] }
  | some b => { body := .ofBuffer b, files := [] }

/-- `urlencodedFormHandler`: identical buffering, decoding deferred to the
`urlSearchParams` accessor. -/
def urlencodedFormHandler (readBody : Option String) : RequestProcessorResponse :=
  match readBody with
  | none => { body := .ofNull, files := [] }
  | some b => { body := .ofBuffer b, files := [] }

/-- `binaryHandler`: buffer the whole body and wrap it as one synthetic
file — empty key and original name, a generated name
(`crypto.randomUUID()`, the `genName` parameter), the raw
`content-type` header taken verbatim — with an `IncomingBody(null)`
body. -/
def binaryHandler (readBody : Option String) (genName : String)
    (rawContentTypeHeader : String) : RequestProcessorResponse :=
  match readBody with
  | none => { body := .ofNull, files := [] }
  | some b =>
    { body := .ofNull
      files := [{ key := ""
                  buffer := b
                  mimeType := rawContentTypeHeader
                  name := genName
                  originalName := "" }] }

/-! ## deriveHost (src/requests/derive-host.ts) -/

/-- `split(/,\s*/)`: split on commas, then strip the whitespace the regex
would have consumed from every piece after the first. -/
def splitCommaWs (s : String) : List String :=
  match jsSplit ',' s with
  | [] => []
  | h :: t => h :: t.map (fun p => String.mk (p.data.dropWhile isJsWhitespace))

/-- `split(/;\s*/)`. -/
def splitSemiWs (s : String) : List String :=
  match jsSplit ';' s with
  | [] => []
  | h :: t => h :: t.map (fun p => String.mk (p.data.dropWhile isJsWhitespace))

/-- `replace(/^"|"$/g, "")`: strip one leading and one trailing quote. -/
def stripEdgeQuotes (s : String) : String :=
  let s₁ := if jsStartsWith s "\"" then dropChars 1 s else s
  if jsEndsWith s₁ "\"" then String.mk s₁.data.dropLast else s₁

/-- First `some` produced by `f` along a list (the nested `return` of the
source loops). -/
def firstSome {α β : Type} (f : α → Option β) : List α → Option β
  | [] => none
  | x :: xs =>
    match f x with
    | some y => some y
    | none => firstSome f xs

/-- The `host=` directive search inside one comma-separated
forwarded-element: split directives on semicolons, destructure each on
`=`, and return the unquoted value of the first (truthy) `host`. -/
def hostFromPart (part : String) : Option String :=
  firstSome
    (fun dir =>
      let pieces := jsSplit '=' dir
      let key := pieces.headD ""
      let raw := pieces.get? 1
      if lowerString key = "host" then
        match raw with
        | some r => if r ≠ "" then some (stripEdgeQuotes r) else none
        | none => none
      else none)
    (splitSemiWs part)

def findHostDirective (forwarded : String) : Option String :=
  firstSome hostFromPart (splitCommaWs forwarded)

/-- `deriveHost(req, trustProxy)`: RFC 7239 `Forwarded: host=` then
`X-Forwarded-Host`, both only under `trustProxy`, then the raw `Host`
header.  Node lowercases incoming header names, so `headers` is keyed in
lower case. -/
def deriveHost (headers : List (String × IncomingHeaders.HdrVal))
    (trustProxy : Bool) : Option String :=
  let viaProxy : Option String :=
    if trustProxy then
      let fromForwarded :=
        match objGet headers "forwarded" with
        | some (.str forwarded) => findHostDirective forwarded
        | _ => none
      match fromForwarded with
      | some h => some h
      | none =>
        match objGet headers "x-forwarded-host" with
        | some (.str xfh) => some (jsTrim ((jsSplit ',' xfh).headD xfh))
        | some (.arr (h :: _)) => some (jsTrim ((jsSplit ',' h).headD h))
        | _ => none
    else none
  match viaProxy with
  | some h => some h
  | none =>
    match objGet headers "host" with
    | some (.str h) => some h
    | some (.arr (h :: _)) => some h
    | _ => none

/-! ## getClientIpInfo (src/requests/get-client-ip-info.ts)

The function takes no proxy-trust input: the forwarded-style headers are
always consulted, in the documented priority order, before falling back
to the socket address. -/

structure ClientIpInfo : Type where
  ip : Option String
  ips : List String
deriving DecidableEq, Inhabited

/-- JS truthiness of a header slot (`if (fwd)`): a present string is
truthy when non-empty, an array is always truthy. -/
def hdrTruthy : IncomingHeaders.HdrVal → Bool
  | .str s => s ≠ ""
  | .arr _ => true

/-- `Array.isArray(v) ? v[0] : v`. -/
def hdrRawFirst : IncomingHeaders.HdrVal → String
  | .str s => s
  | .arr l => l.headD ""

/-- Drop characters up to and including the first occurrence of `pat`. -/
def dropThroughSub (pat : List Char) : List Char → Option (List Char)
  | [] => none
  | c :: cs =>
    if (c :: cs).take pat.length = pat then some ((c :: cs).drop pat.length)
    else dropThroughSub pat cs

/-- The `for=` value delimiters `; , " ]`. -/
def forwardedDelim (c : Char) : Bool :=
  c = ';' ∨ c = ',' ∨ c = '"' ∨ c = ']'

/-- The scanning loop of `parseForwarded`: find `for=`, optionally skip a
quote or IPv6 bracket, read to a delimiter, then continue after the next
comma.  Each iteration advances the JS index strictly, so `fuel` set to
the header length bounds the loop. -/
def parseForwardedLoop : Nat → List Char → List String
  | 0, _ => []
  | fuel + 1, l =>
    match dropThroughSub "for=".data l with
    | none => []
    | some rest₀ =>
      let rest₁ :=
        match rest₀ with
        | c :: cs => if c = '"' ∨ c = '[' then cs else rest₀
        | [] => []
      let value := String.mk (rest₁.takeWhile (fun c => ! forwardedDelim c))
      let rest₂ := rest₁.dropWhile (fun c => ! forwardedDelim c)
      match dropThroughSub [','] rest₂ with
      | none => [value]
      | some rest₃ => value :: parseForwardedLoop fuel rest₃

def parseForwarded (header : String) : List String :=
  parseForwardedLoop (header.data.length + 1) header.data

/-- `!ips || ips.length === 0`: try the next source. -/
def needNextIpSource : Option (List String) → Bool
  | none => true
  | some l => l.isEmpty

/-- One fallback block of `getClientIpInfo`: when no earlier source
produced a non-empty list, a truthy header named `name` is read through
`f`; otherwise the previous candidates stand. -/
def ipFallbackStep (headers : List (String × IncomingHeaders.HdrVal))
    (name : String) (f : IncomingHeaders.HdrVal → List String)
    (prev : Option (List String)) : Option (List String) :=
  if needNextIpSource prev then
    match objGet headers name with
    | some v => if hdrTruthy v then some (f v) else prev
    | none => prev
  else prev

/-- The header-sourced candidate lists of `getClientIpInfo`, tried in
order (`ips` before the socket fallback; `none` models the JS `null`). -/
def ipCandidates (headers : List (String × IncomingHeaders.HdrVal)) :
    Option (List String) :=
  let ips₁ : Option (List String) :=
    match objGet headers "forwarded" with
    | some v => if hdrTruthy v then some (parseForwarded (hdrRawFirst v)) else none
    | none => none
  let ips₂ := ipFallbackStep headers "x-forwarded-for"
    (fun v => ((jsSplit ',' (hdrRawFirst v)).map jsTrim).filter (· ≠ "")) ips₁
  let ips₃ := ipFallbackStep headers "x-real-ip" (fun v => [jsTrim (hdrRawFirst v)]) ips₂
  ipFallbackStep headers "cf-connecting-ip" (fun v => [jsTrim (hdrRawFirst v)]) ips₃

def getClientIpInfo (headers : List (String × IncomingHeaders.HdrVal))
    (socketRemoteAddress : Option String) : ClientIpInfo :=
  let ips₄ := ipCandidates headers
  let remote : Option String :=
    match socketRemoteAddress with
    | some r => if r = "" then none else some r
    | none => none
  match remote with
  | some r₀ =>
    let r := if jsStartsWith r₀ "::ffff:" then dropChars 7 r₀ else r₀
    let l := match ips₄ with | some l => l ++ [r] | none => [r]
    { ip := l.head?, ips := l }
  | none =>
    let l := ips₄.getD []
    { ip := l.head?, ips := l }

/-! ## processRequestContent descriptor fields

The fragment of `processRequestContent` that the host / client-IP
property talks about: the derived host honors `options?.trustProxy`,
while `remoteAddress` is `getClientIpInfo(req)` with no trust input at
all (and the processor in `$incomingMessageHandlerImpl` calls
`processRequestContent(req)` without options, so `trustProxy` is never
set on the live pipeline). -/

structure RequestDescriptor : Type where
  host : String
  remoteAddress : ClientIpInfo
deriving DecidableEq, Inhabited

/-- Host and remote-address derivation of `processRequestContent`
(`none` models the early `return null` on a falsy host). -/
def processedHostAndIp (headers : List (String × IncomingHeaders.HdrVal))
    (socketRemoteAddress : Option String) (trustProxy : Bool) :
    Option RequestDescriptor :=
  match deriveHost headers trustProxy with
  | none => none
  | some host =>
    if host = "" then none
    else some { host := host, remoteAddress := getClientIpInfo headers socketRemoteAddress }

/-! ## Route drafts (route/route.ts `$cloneWithSchema` and the
schema-attachment methods)

`$cloneWithSchema` shallow-copies the route object and gives the copy a
fresh `__$schemas` record `{...this.__$schemas, [key]: nextSchema}`; the
attached value (`$applyMetadata(seal.object(schema), meta)`) is produced
by the external `seal` library and taken here as given.  `$request`
snapshots `{...this.__$schemas}` of the draft the verb is called on. -/

structure RouteDraft (α : Type) : Type where
  schemas : List (String × α) := []

def RouteDraft.cloneWithSchema {α : Type} (r : RouteDraft α) (key : String)
    (nextSchema : α) : RouteDraft α :=
  { schemas := objSet r.schemas key nextSchema }

/-- `.body(schema)`. -/
def RouteDraft.body {α : Type} (r : RouteDraft α) (schema : α) : RouteDraft α :=
  r.cloneWithSchema "body" schema

/-- `.headers(schema)`. -/
def RouteDraft.headers {α : Type} (r : RouteDraft α) (schema : α) : RouteDraft α :=
  r.cloneWithSchema "headers" schema

/-- `.query(schema)`. -/
def RouteDraft.query {α : Type} (r : RouteDraft α) (schema : α) : RouteDraft α :=
  r.cloneWithSchema "query" schema

/-- `.params(schema)`. -/
def RouteDraft.params {α : Type} (r : RouteDraft α) (schema : α) : RouteDraft α :=
  r.cloneWithSchema "params" schema

/-- The schema snapshot `$request` takes from the draft a verb is called
on. -/
def RouteDraft.requestSchemas {α : Type} (r : RouteDraft α) : List (String × α) :=
  r.schemas

/-! ## Dispatch-time validation (route/route-requests.ts `$request`) -/

/-- The `debug.validation` configuration: `skip` disables validation,
`messages` enables verbose validation messages. -/
structure ValidationDebug : Type where
  skip : Bool := false
  messages : Bool := false

/-- `defaultResponse(type)`. -/
def defaultResponse (type : String) : String :=
  "Provided request cannot be processed due to invalid " ++ type

/-- What the registered pathfinder closure does with one request. -/
inductive DispatchResult : Type where
  | invokedHandler (r : HandlerRet) : DispatchResult
  | returnedValidationError (message : String) : DispatchResult
  | threwValidationError (message : String) : DispatchResult
deriving Inhabited

/-- The `for (const [type, schema] of schemaEntries)` validation loop:
a missing / non-object slot value returns a `ValidationError` naming the
slot; a non-empty message list throws one, verbose joining the messages
and the default naming the slot. -/
def validateSlots (dbg : ValidationDebug)
    (validate : Nat → JsValue → List String)
    (validationParams : String → JsValue)
    (handlerResult : HandlerRet) :
    List (String × Nat) → DispatchResult
  | [] => .invokedHandler handlerResult
  | (type, schema) :: rest =>
    let v := validationParams type
    if ¬ v.truthy ∨ ¬ v.typeofObject then
      .returnedValidationError (defaultResponse type)
    else
      let messages := validate schema v
      if messages.length ≠ 0 then
        .threwValidationError
          (if dbg.messages then joinWithSep ", " messages
           else defaultResponse type)
      else validateSlots dbg validate validationParams handlerResult rest

/-- The registered route closure: validation (unless skipped) and then
the user handler. -/
def routeDispatch (dbg : ValidationDebug) (schemaEntries : List (String × Nat))
    (validate : Nat → JsValue → List String)
    (validationParams : String → JsValue)
    (handlerResult : HandlerRet) : DispatchResult :=
  if dbg.skip then .invokedHandler handlerResult
  else validateSlots dbg validate validationParams handlerResult schemaEntries

/-- Modelled from the spec: the external `@sigiljs/seal` library's
`ValidationError` class (not under `src/`) is a `ClientInputError`
subtype of the 400 family, so a numeric `code` of 400 is assumed on its
instances; `Exception.fromError` reads that `code` field. -/
def sealValidationErrorCode : Int := 400

/-- The dispatch result as seen after `$executeHandler` and
`$formatResponse` (a returned `ValidationError` is an `Error` value, a
thrown one is caught by `$executeHandler`), paired with whether the user
handler ran. -/
def dispatchToEnvelope (readFile : String → Option String)
    (d : DispatchResult) : Envelope × Bool :=
  match d with
  | .invokedHandler r => (formatResponse readFile r, true)
  | .returnedValidationError m =>
    (formatResponse readFile (.err "ValidationError" m (some sealValidationErrorCode)), false)
  | .threwValidationError m =>
    (.exc (Exception.fromError (.jsError "ValidationError" m (some sealValidationErrorCode))), false)

/-! ## IncomingRequestProcessorResponse.createClientRequest
(src/requests/containers/incoming-request-processor-response.ts)

The `#clientRequest` cache as explicit state: a cached object (always
truthy) short-circuits every later call. -/

structure ClientRequest (α : Type) : Type where
  options : α
  params : List (String × String)
deriving DecidableEq

structure ProcessorCache (α : Type) : Type where
  clientRequest : Option (ClientRequest α) := none
deriving DecidableEq

def createClientRequest {α : Type} (options : α) (st : ProcessorCache α)
    (params : List (String × String)) :
    ClientRequest α × ProcessorCache α :=
  match st.clientRequest with
  | some c => (c, st)
  | none =>
    let c : ClientRequest α := { options := options, params := params }
    (c, { clientRequest := some c })

/-- Whether a fallible construction succeeded (the constructor did not
throw). -/
def constructionSucceeds {ε α : Type} : Except ε α → Bool
  | .ok _ => true
  | .error _ => false

/-! # Theorems -/

/-- C2 counterexample: the claim says constructing *any* response
envelope — the exception envelope included — with a status code below
100 fails with a construction error.  The `Exception` constructor is
total (`Exception.make` returns an `ExceptionData`, never an error):
constructing it with code 99 or 600 succeeds and silently replaces the
code with 500, so the claim is false for the exception envelope. -/
theorem C2_counterexample :
    (Exception.make { code := 99 }).code = 500 ∧
    (Exception.make { code := 600 }).code = 500 :=
  ⟨rfl, rfl⟩

theorem BasicResponse.make_out_of_range (c : Int) (v : JsValue)
    (h : Option (List (String × IncomingHeaders.HdrVal)))
    (hc : c < 100 ∨ c > 599) :
    BasicResponse.make v (some c) h
      = .error ("Invalid response code: " ++ toString c) := by
  simp [BasicResponse.make, hc]

theorem BasicResponse.make_in_range (c : Int) (v : JsValue)
    (h : Option (List (String × IncomingHeaders.HdrVal)))
    (hc : ¬ (c < 100 ∨ c > 599)) :
    BasicResponse.make v (some c) h
      = .ok ⟨v, c, IncomingHeaders.ofDict (h.getD [])⟩ := by
  simp [BasicResponse.make, hc]

/-- A closed form for `Redirect.make` with an explicit code: the base
range check runs first, then the 3xx check. -/
theorem Redirect.make_some (toUrl : String) (c : Int) :
    Redirect.make toUrl (some c) =
      if c < 100 ∨ c > 599 then .error ("Invalid response code: " ++ toString c)
      else if c < 300 ∨ c > 399 then .error ("Invalid redirect code: " ++ toString c)
      else .ok (.redirect c (IncomingHeaders.ofDict [("location", .str toUrl)])) := by
  by_cases h₁ : c < 100 ∨ c > 599
  · simp [Redirect.make, BasicResponse.make_out_of_range c _ _ h₁, h₁]
  · by_cases h₂ : c < 300 ∨ c > 399 <;>
      simp [Redirect.make, BasicResponse.make_in_range c _ _ h₁, h₁, h₂]

/-- C2 amended: constructing a base response, `SigilResponse`,
`RawResponse`, `StreamResponse` or `Redirect` with a code below 100 or
above 599 fails with a construction error while 100 and 599 succeed; a
`Redirect` with a code outside 300-399 fails while 300 and 399 succeed
and an omitted code defaults to 302; an `Exception`, however, never
fails construction and instead clamps an out-of-range code to 500; and a
`FileResponse` takes no status-code argument at all, its code being
fixed at 200. -/
theorem C2_amended :
    (∀ (c : Int) (v : JsValue) (h : Option (List (String × IncomingHeaders.HdrVal))),
      c < 100 ∨ c > 599 →
        constructionSucceeds (BasicResponse.make v (some c) h) = false ∧
        constructionSucceeds (SigilResponse.make v (some c) h) = false ∧
        constructionSucceeds (RawResponse.make v h (some c)) = false ∧
        constructionSucceeds (StreamResponse.make (some c) []) = false ∧
        constructionSucceeds (Redirect.make "/x" (some c)) = false) ∧
    (∀ (v : JsValue) (h : Option (List (String × IncomingHeaders.HdrVal))),
        constructionSucceeds (BasicResponse.make v (some 100) h) = true ∧
        constructionSucceeds (BasicResponse.make v (some 599) h) = true ∧
        constructionSucceeds (SigilResponse.make v (some 100) h) = true ∧
        constructionSucceeds (SigilResponse.make v (some 599) h) = true) ∧
    (∀ (toUrl : String) (c : Int), c < 300 ∨ c > 399 →
        constructionSucceeds (Redirect.make toUrl (some c)) = false) ∧
    (∀ toUrl : String,
        constructionSucceeds (Redirect.make toUrl (some 300)) = true ∧
        constructionSucceeds (Redirect.make toUrl (some 399)) = true ∧
        (Redirect.make toUrl none).toOption.map Resp.code = some 302) ∧
    (∀ opts : ExceptionOptions,
        (Exception.make opts).code =
          if 100 ≤ opts.code ∧ opts.code ≤ 599 then opts.code else 500) ∧
    (∀ (path : String) (ct enc : Option String),
        (FileResponse.make path ct enc).toOption.map Resp.code = some 200) := by
  refine ⟨?_, ?_, ?_, ?_, ?_, ?_⟩
  · intro c v h hc
    have hb := BasicResponse.make_out_of_range c v h hc
    refine ⟨by simp [hb, constructionSucceeds], ?_, ?_, ?_, ?_⟩
    · simp [SigilResponse.make, hb, constructionSucceeds]
    · have e₁ := BasicResponse.make_out_of_range c v
        (some [("content-type", .str "application/json")]) hc
      simp [RawResponse.make, e₁, hb, constructionSucceeds]
    · simp [StreamResponse.make, BasicResponse.make_out_of_range c _ _ hc,
        constructionSucceeds]
    · rw [Redirect.make_some]
      simp [hc, constructionSucceeds]
  · intro v h
    refine ⟨?_, ?_, ?_, ?_⟩ <;>
      simp [BasicResponse.make, SigilResponse.make, constructionSucceeds]
  · intro toUrl c hc
    rw [Redirect.make_some]
    by_cases hbase : c < 100 ∨ c > 599 <;> simp [hbase, hc, constructionSucceeds]
  · intro toUrl
    refine ⟨?_, ?_, ?_⟩
    · rw [Redirect.make_some]
      norm_num [constructionSucceeds]
    · rw [Redirect.make_some]
      norm_num [constructionSucceeds]
    · rfl
  · intro opts
    by_cases hr : 100 ≤ opts.code ∧ opts.code ≤ 599 <;> simp [Exception.make, hr]
  · intro path ct enc
    cases ct <;> rfl

/-- C2 witness. -/
theorem C2_witness :
    constructionSucceeds (BasicResponse.make .null (some 99) none) = false ∧
    constructionSucceeds (Redirect.make "/x" (some 400)) = false ∧
    (Exception.make { code := 99 }).code =
      if 100 ≤ (99 : Int) ∧ (99 : Int) ≤ 599 then (99 : Int) else 500 :=
  ⟨(C2_amended.1 99 .null none (by decide)).1,
   C2_amended.2.2.1 "/x" 400 (by decide),
   C2_amended.2.2.2.2.1 { code := 99 }⟩

/-- C7: every schema-attachment call builds a fresh draft whose schema
record is the base's record with exactly the one slot overlaid — the
base's own container (what `$request` snapshots for verbs registered
directly on the base) is untouched, and two drafts derived independently
from the same base each see their own overlay plus the base's
pre-existing overlays on all other slots, so neither draft's schema
leaks into the other or onto the base. -/
theorem C7_schema_draft_isolation {α : Type} (base : RouteDraft α) (A B : α) :
    ((base.body A).schemas = objSet base.schemas "body" A) ∧
    ((base.headers A).schemas = objSet base.schemas "headers" A) ∧
    ((base.query B).schemas = objSet base.schemas "query" B) ∧
    ((base.params A).schemas = objSet base.schemas "params" A) ∧
    (base.requestSchemas = base.schemas) ∧
    (objGet (base.body A).schemas "body" = some A) ∧
    (∀ k, k ≠ "body" → objGet (base.body A).schemas k = objGet base.schemas k) ∧
    (objGet (base.query B).schemas "query" = some B) ∧
    (∀ k, k ≠ "query" → objGet (base.query B).schemas k = objGet base.schemas k) := by
  refine ⟨rfl, rfl, rfl, rfl, rfl, ?_, ?_, ?_, ?_⟩
  · exact objGet_objSet_self _ _ _
  · intro k hk
    exact objGet_objSet_ne _ _ _ _ hk
  · exact objGet_objSet_self _ _ _
  · intro k hk
    exact objGet_objSet_ne _ _ _ _ hk

/-- C7 witness. -/
theorem C7_witness :
    objGet ((RouteDraft.mk (α := Nat) []).body 1).schemas "query" =
      objGet (RouteDraft.mk (α := Nat) []).schemas "query" ∧
    objGet ((RouteDraft.mk (α := Nat) []).query 2).schemas "body" =
      objGet (RouteDraft.mk (α := Nat) []).schemas "body" ∧
    objGet ((RouteDraft.mk (α := Nat) []).body 1).schemas "body" = some 1 := by
  obtain ⟨h₁, h₂, h₃, h₄, h₅, h₆, h₇, h₈, h₉⟩ :=
    C7_schema_draft_isolation (RouteDraft.mk (α := Nat) []) 1 2
  exact ⟨h₇ "query" (by decide), h₉ "body" (by decide), h₆⟩

/-- C9 counterexample: the claim says that after `set('cookie', v)` the
cookie map contains *exactly* the pairs parsed from `v`, with no pairs
from any earlier cookie value surviving.  But `#parseCookie` assigns
into the existing map without clearing it: after setting `a=1` and then
`b=2`, the pair `("a", "1")` is still present. -/
theorem C9_counterexample :
    ((IncomingHeaders.empty.set "cookie" "a=1").set "cookie" "b=2").cookies
      = [("a", "1"), ("b", "2")] := rfl

/-- C9 amended: every mutation of the `cookie` header reparses the new
value *into* the existing cookie map — `set('cookie', v)` and
`append('cookie', v)` both merge the pairs parsed from `v` on top of the
earlier pairs (which otherwise survive; only `delete('cookie')` empties
the map), mutations of other headers leave the cookie map alone, and a
parsed `name=value` pair is assigned over any earlier binding of that
name while unrelated names keep their old binding. -/
theorem C9_cookie_map (st : IncomingHeaders) (v name : String) :
    ((st.set "cookie" v).cookies = IncomingHeaders.parseCookieInto st.cookies v) ∧
    ((st.append "cookie" v).cookies = IncomingHeaders.parseCookieInto st.cookies v) ∧
    ((st.del "cookie").cookies = []) ∧
    (lowerString name ≠ "cookie" → (st.set name v).cookies = st.cookies) ∧
    (objGet (st.set "cookie" "theme=dark").cookies "theme" = some "dark") ∧
    (∀ k, k ≠ "theme" →
      objGet (st.set "cookie" "theme=dark").cookies k = objGet st.cookies k) := by
  refine ⟨rfl, rfl, rfl, ?_, ?_, ?_⟩
  · intro hn
    simp [IncomingHeaders.set, hn]
  · show objGet (objSet st.cookies "theme" "dark") "theme" = some "dark"
    exact objGet_objSet_self _ _ _
  · intro k hk
    show objGet (objSet st.cookies "theme" "dark") k = objGet st.cookies k
    exact objGet_objSet_ne _ _ _ _ hk

/-- C9 witness. -/
theorem C9_witness :
    ((IncomingHeaders.empty.set "x-test" "1").cookies = IncomingHeaders.empty.cookies) ∧
    (objGet ((IncomingHeaders.mk [] [("old", "kept")]).set "cookie" "theme=dark").cookies "old"
      = some "kept") :=
  ⟨(C9_cookie_map IncomingHeaders.empty "1" "x-test").2.2.2.1 (by decide),
   (C9_cookie_map (IncomingHeaders.mk [] [("old", "kept")]) "" "").2.2.2.2.2 "old" (by decide)⟩

/-- C10: the first `createClientRequest(params)` call builds the client
request from the descriptor and the given params and caches it; any
later call, with any params argument whatsoever, returns the cached
object and leaves the cache unchanged. -/
theorem C10_createClientRequest_cached {α : Type} (options : α)
    (st : ProcessorCache α) (c : ClientRequest α)
    (p₁ p₂ : List (String × String))
    (hc : st.clientRequest = some c) :
    (createClientRequest options ⟨none⟩ p₁
      = ({ options := options, params := p₁ },
         ⟨some { options := options, params := p₁ }⟩)) ∧
    createClientRequest options st p₂ = (c, st) := by
  constructor
  · rfl
  · simp [createClientRequest, hc]

theorem objGet_objDelete_ne {α : Type} (m : List (String × α)) (k k' : String)
    (h : k' ≠ k) : objGet (objDelete m k) k' = objGet m k' := by
  induction m with
  | nil => rfl
  | cons p rest ih =>
    obtain ⟨k₀, v₀⟩ := p
    by_cases hk : k₀ = k
    · subst hk
      simp [objDelete, objGet, Ne.symm h, ih]
    · by_cases hk' : k₀ = k' <;> simp [objDelete, objGet, hk, hk', h, ih]

/-- C4: for body-carrying methods with a (non-empty) Content-Type, the
classifier takes the media type before any `;` parameter and selects
exactly one strategy from it — buffer-parse for `text/`-prefixed or
`json`-suffixed types and for the three exact application types,
multipart for exactly `multipart/form-data`, deferred-decoding
buffer-parse for exactly `application/x-www-form-urlencoded`, and the
binary handler for anything else; the buffer handlers buffer the whole
body with no files, the urlencoded handler keeps the raw bytes with
URL-decoding deferred to the `urlSearchParams` accessor, and the binary
handler produces exactly one synthetic file with empty key and original
name, the generated name, the Content-Type header taken verbatim, and a
body whose `json()` view yields JS `null` (no object). -/
theorem C4_body_classification :
    (∀ (method s : String), method ∈ SUPPORTED_METHODS →
        effectiveContentType method (some s) = some (jsTrim ((jsSplit ';' s).headD s))) ∧
    (∀ (method : String) (ct : Option String) (mt : String),
      effectiveContentType method ct = some mt → mt ≠ "" →
        ((jsStartsWith mt "text/" = true ∨ jsEndsWith mt "json" = true ∨
          mt = "application/json" ∨ mt = "application/xml" ∨
          mt = "application/javascript") →
          chooseStrategy method ct = .bufferParse) ∧
        (mt = "multipart/form-data" → chooseStrategy method ct = .multipart) ∧
        (mt = "application/x-www-form-urlencoded" →
          chooseStrategy method ct = .urlencoded) ∧
        (jsStartsWith mt "text/" = false → jsEndsWith mt "json" = false →
          mt ≠ "application/json" → mt ≠ "application/xml" →
          mt ≠ "application/javascript" → mt ≠ "multipart/form-data" →
          mt ≠ "application/x-www-form-urlencoded" →
          chooseStrategy method ct = .binary)) ∧
    (∀ b : String, bufferHandler (some b) = { body := .ofBuffer b, files := [] }) ∧
    (∀ b : String,
        urlencodedFormHandler (some b) = { body := .ofBuffer b, files := [] } ∧
        ∀ pq : String → List (String × String),
          ((urlencodedFormHandler (some b)).body.urlSearchParams pq) = pq b) ∧
    (∀ (b genName raw : String),
        binaryHandler (some b) genName raw =
          { body := .ofNull
            files := [{ key := "", name := genName, originalName := "",
                        mimeType := raw, buffer := b }] } ∧
        ∀ jp : String → Option JsValue, jp "null" = some JsValue.null →
          (binaryHandler (some b) genName raw).body.json jp = JsValue.null) := by
  refine ⟨?_, ?_, ?_, ?_, ?_⟩
  · intro method s h
    simp [effectiveContentType, h]
  · intro method ct mt hct hne
    have hc : chooseStrategy method ct =
        (if mt = "" then .noParse
         else if jsStartsWith mt "text/" ∨ jsEndsWith mt "json" then .bufferParse
         else if mt = "application/json" then .bufferParse
         else if mt = "application/xml" then .bufferParse
         else if mt = "application/javascript" then .bufferParse
         else if mt = "multipart/form-data" then .multipart
         else if mt = "application/x-www-form-urlencoded" then .urlencoded
         else .binary) := by
      simp [chooseStrategy, hct]
    refine ⟨?_, ?_, ?_, ?_⟩
    · rintro (h₁ | h₁ | h₁ | h₁ | h₁)
      · simp [hc, hne, h₁]
      · simp [hc, hne, h₁]
      · subst h₁; simp [hc]
      · subst h₁; rw [hc]; rfl
      · subst h₁; rw [hc]; rfl
    · intro h₁; subst h₁; rw [hc]; rfl
    · intro h₁; subst h₁; rw [hc]; rfl
    · intro h₁ h₂ h₃ h₄ h₅ h₆ h₇
      simp [hc, hne, h₁, h₂, h₃, h₄, h₅, h₆, h₇]
  · intro b; rfl
  · intro b; exact ⟨rfl, fun pq => rfl⟩
  · intro b genName raw
    refine ⟨rfl, fun jp hjp => ?_⟩
    simp [binaryHandler, IncomingBody.json, IncomingBody.text, IncomingBody.ofNull, hjp]

/-- C4 witness. -/
theorem C4_witness :
    effectiveContentType "POST" (some "application/json; charset=utf-8")
      = some "application/json" ∧
    chooseStrategy "POST" (some "application/json; charset=utf-8") = .bufferParse ∧
    chooseStrategy "PUT" (some "multipart/form-data") = .multipart ∧
    chooseStrategy "PATCH" (some "application/x-www-form-urlencoded") = .urlencoded ∧
    chooseStrategy "DELETE" (some "image/png") = .binary ∧
    (binaryHandler (some "PNGDATA") "generated-uuid" "image/png").body.json
      (fun s => if s = "null" then some JsValue.null else none) = JsValue.null := by
  refine ⟨?_, ?_, ?_, ?_, ?_, ?_⟩
  · exact (C4_body_classification.1 "POST" "application/json; charset=utf-8" (by decide)).trans
      (by rfl)
  · exact (C4_body_classification.2.1 "POST" (some "application/json; charset=utf-8")
      "application/json" (by rfl) (by decide)).1 (by right; left; rfl)
  · exact (C4_body_classification.2.1 "PUT" (some "multipart/form-data")
      "multipart/form-data" (by rfl) (by decide)).2.1 rfl
  · exact (C4_body_classification.2.1 "PATCH" (some "application/x-www-form-urlencoded")
      "application/x-www-form-urlencoded" (by rfl) (by decide)).2.2.1 rfl
  · exact (C4_body_classification.2.1 "DELETE" (some "image/png")
      "image/png" (by rfl) (by decide)).2.2.2 (by decide) (by decide) (by decide)
      (by decide) (by decide) (by decide) (by decide)
  · exact ((C4_body_classification.2.2.2.2 "PNGDATA" "generated-uuid" "image/png").2
      (fun s => if s = "null" then some JsValue.null else none) (by rfl))

/-- Passing slots do not change the validation outcome: slots whose value
is a truthy object that the validator accepts are stepped over. -/
theorem validateSlots_append_passing (dbg : ValidationDebug)
    (validate : Nat → JsValue → List String) (vparams : String → JsValue)
    (hres : HandlerRet) (pre rest : List (String × Nat))
    (hpre : ∀ p ∈ pre, (vparams p.1).truthy = true ∧
      (vparams p.1).typeofObject = true ∧ validate p.2 (vparams p.1) = []) :
    validateSlots dbg validate vparams hres (pre ++ rest)
      = validateSlots dbg validate vparams hres rest := by
  induction pre with
  | nil => rfl
  | cons p ps ih =>
    obtain ⟨ht, ho, hv⟩ := hpre p (List.mem_cons_self p ps)
    have step := ih (fun q hq => hpre q (List.mem_cons_of_mem p hq))
    simpa [validateSlots, ht, ho, hv] using step

/-- The message of an exception envelope. -/
def Envelope.excMessage : Envelope → Option String
  | .exc e => some e.message
  | .resp _ => none

theorem defaultResponse_ne_empty (slot : String) : defaultResponse slot ≠ "" := by
  intro h
  have : (defaultResponse slot).data = [] := by rw [h]
  rw [defaultResponse] at this
  simp [String.data_append] at this

/-- C5: with validation enabled, the first slot (after any passing ones)
whose validation input is missing or not an object makes the registered
closure return a `ValidationError` naming that slot — the user handler
never runs and the resulting exception envelope carries code 400; and a
slot whose validator returns a non-empty message list makes the closure
throw a `ValidationError` whose message is the comma-joined list under
verbose validation and the generic invalid-slot message otherwise —
again without running the handler, and again surfacing as a 400
exception envelope. -/
theorem C5_validation_errors (dbg : ValidationDebug) (hskip : dbg.skip = false)
    (validate : Nat → JsValue → List String) (vparams : String → JsValue)
    (hres : HandlerRet) (readFile : String → Option String)
    (pre post : List (String × Nat)) (slot : String) (schema : Nat)
    (hpre : ∀ p ∈ pre, (vparams p.1).truthy = true ∧
      (vparams p.1).typeofObject = true ∧ validate p.2 (vparams p.1) = []) :
    (¬ ((vparams slot).truthy = true ∧ (vparams slot).typeofObject = true) →
      routeDispatch dbg (pre ++ (slot, schema) :: post) validate vparams hres
        = .returnedValidationError (defaultResponse slot) ∧
      (dispatchToEnvelope readFile
        (routeDispatch dbg (pre ++ (slot, schema) :: post) validate vparams hres)).2
        = false ∧
      (dispatchToEnvelope readFile
        (routeDispatch dbg (pre ++ (slot, schema) :: post) validate vparams hres)).1.code
        = 400 ∧
      (dispatchToEnvelope readFile
        (routeDispatch dbg (pre ++ (slot, schema) :: post) validate vparams hres)).1.excMessage
        = some (defaultResponse slot)) ∧
    ((vparams slot).truthy = true → (vparams slot).typeofObject = true →
      validate schema (vparams slot) ≠ [] →
      routeDispatch dbg (pre ++ (slot, schema) :: post) validate vparams hres
        = .threwValidationError
            (if dbg.messages then joinWithSep ", " (validate schema (vparams slot))
             else defaultResponse slot) ∧
      (dispatchToEnvelope readFile
        (routeDispatch dbg (pre ++ (slot, schema) :: post) validate vparams hres)).2
        = false ∧
      (dispatchToEnvelope readFile
        (routeDispatch dbg (pre ++ (slot, schema) :: post) validate vparams hres)).1.code
        = 400) := by
  have hrd : routeDispatch dbg (pre ++ (slot, schema) :: post) validate vparams hres
      = validateSlots dbg validate vparams hres ((slot, schema) :: post) := by
    rw [routeDispatch, if_neg (by simp [hskip]),
      validateSlots_append_passing dbg validate vparams hres pre _ hpre]
  constructor
  · intro hbad
    have hcond : (¬ (vparams slot).truthy = true ∨ ¬ (vparams slot).typeofObject = true) := by
      by_cases h₁ : (vparams slot).truthy = true
      · exact Or.inr (fun h₂ => hbad ⟨h₁, h₂⟩)
      · exact Or.inl h₁
    have hstep : validateSlots dbg validate vparams hres ((slot, schema) :: post)
        = .returnedValidationError (defaultResponse slot) := by
      rw [validateSlots]
      simp only [if_pos hcond]
    rw [hrd, hstep]
    refine ⟨rfl, rfl, ?_, ?_⟩
    · simp [dispatchToEnvelope, formatResponse, Exception.fromError, Exception.make,
        sealValidationErrorCode, Envelope.code]
    · simp [dispatchToEnvelope, formatResponse, Exception.fromError, Exception.make,
        sealValidationErrorCode, Envelope.excMessage, defaultResponse_ne_empty slot]
  · intro ht ho hmsgs
    have hstep : validateSlots dbg validate vparams hres ((slot, schema) :: post)
        = .threwValidationError
            (if dbg.messages then joinWithSep ", " (validate schema (vparams slot))
             else defaultResponse slot) := by
      rw [validateSlots]
      simp [ht, ho, hmsgs, List.length_eq_zero]
    rw [hrd, hstep]
    refine ⟨rfl, rfl, ?_⟩
    simp [dispatchToEnvelope, Exception.fromError, Exception.make,
      sealValidationErrorCode, Envelope.code]

/-- C5 witness: a body slot bound to `undefined` is rejected with the
generic invalid-body message before the handler runs, and a validator
message list on a present body is rethrown with the generic message when
verbose validation is off. -/
theorem C5_witness :
    (routeDispatch ⟨false, false⟩ [("body", 0)] (fun _ _ => [])
        (fun _ => .undef) (.value (.str "unreached"))
      = .returnedValidationError (defaultResponse "body")) ∧
    ((dispatchToEnvelope (fun _ => none)
        (routeDispatch ⟨false, false⟩ [("body", 0)] (fun _ _ => [])
          (fun _ => .undef) (.value (.str "unreached")))).2 = false) ∧
    (routeDispatch ⟨false, false⟩ [("body", 0)]
        (fun _ _ => ["id must be a non-empty string"])
        (fun _ => .obj [("id", .str "")]) (.value (.str "unreached"))
      = .threwValidationError (defaultResponse "body")) := by
  have h₁ := C5_validation_errors ⟨false, false⟩ rfl (fun _ _ => [])
    (fun _ => .undef) (.value (.str "unreached")) (fun _ => none)
    [] [] "body" 0 (by intro p hp; cases hp)
  have h₂ := C5_validation_errors ⟨false, false⟩ rfl
    (fun _ _ => ["id must be a non-empty string"])
    (fun _ => .obj [("id", .str "")]) (.value (.str "unreached")) (fun _ => none)
    [] [] "body" 0 (by intro p hp; cases hp)
  refine ⟨(h₁.1 (by decide)).1, (h₁.1 (by decide)).2.1, ?_⟩
  have := (h₂.2 (by decide) (by decide) (by decide)).1
  simpa using this

/-- When `Forwarded` is absent and `X-Forwarded-For` holds a non-empty
string, the candidate list is its comma-split, trimmed, non-empty
parts. -/
theorem ipFallbackStep_stands (headers : List (String × IncomingHeaders.HdrVal))
    (name : String) (f : IncomingHeaders.HdrVal → List String)
    (prev : Option (List String)) (h : needNextIpSource prev = false) :
    ipFallbackStep headers name f prev = prev := by
  simp [ipFallbackStep, h]

theorem ipFallbackStep_hit (headers : List (String × IncomingHeaders.HdrVal))
    (name : String) (f : IncomingHeaders.HdrVal → List String)
    (prev : Option (List String)) (v : IncomingHeaders.HdrVal)
    (h : needNextIpSource prev = true) (hv : objGet headers name = some v)
    (ht : hdrTruthy v = true) :
    ipFallbackStep headers name f prev = some (f v) := by
  simp [ipFallbackStep, h, hv, ht]

theorem ipFallbackStep_miss (headers : List (String × IncomingHeaders.HdrVal))
    (name : String) (f : IncomingHeaders.HdrVal → List String)
    (prev : Option (List String)) (hv : objGet headers name = none) :
    ipFallbackStep headers name f prev = prev := by
  by_cases h : needNextIpSource prev = true <;> simp [ipFallbackStep, h, hv]

theorem ipCandidates_xff (headers : List (String × IncomingHeaders.HdrVal))
    (raw : String) (hf : objGet headers "forwarded" = none)
    (hx : objGet headers "x-forwarded-for" = some (.str raw)) (hraw : raw ≠ "")
    (hparts : ((jsSplit ',' raw).map jsTrim).filter (· ≠ "") ≠ []) :
    ipCandidates headers = some (((jsSplit ',' raw).map jsTrim).filter (· ≠ "")) := by
  have hne : hdrTruthy (IncomingHeaders.HdrVal.str raw) = true := by
    simp [hdrTruthy, hraw]
  have hnn : needNextIpSource (some (((jsSplit ',' raw).map jsTrim).filter (· ≠ ""))) = false := by
    obtain ⟨p, ps, hps⟩ := List.exists_cons_of_ne_nil hparts
    rw [hps]
    rfl
  rw [ipCandidates]
  simp only [hf]
  rw [ipFallbackStep_hit headers _ _ none (.str raw) rfl hx hne]
  simp only [hdrRawFirst]
  rw [ipFallbackStep_stands _ _ _ _ hnn, ipFallbackStep_stands _ _ _ _ hnn]

theorem objGet_map_value {α β : Type} (f : α → β) (m : List (String × α)) (k : String) :
    objGet (m.map (fun p => (p.1, f p.2))) k = (objGet m k).map f := by
  induction m with
  | nil => rfl
  | cons p rest ih =>
    obtain ⟨k₀, v₀⟩ := p
    by_cases h : k₀ = k <;> simp [objGet, h, ih]

theorem wireOfLink_keys (m : List (String × List String)) :
    (wireOfLink m).map Prod.fst = m.map Prod.fst := by
  simp [wireOfLink]

theorem objGet_wireOfLink (m : List (String × List String)) (k : String) :
    objGet (wireOfLink m) k = (objGet m k).map IncomingHeaders.HdrVal.arr := by
  rw [wireOfLink, objGet_map_value (fun vs => IncomingHeaders.HdrVal.arr vs) m k]

/-- The override headers win through `Object.assign(target, overrides)`:
any key of the (duplicate-free) override record resolves to its override
value in the merged wire headers. -/
theorem objGet_assign_wire (t : WireHeaders) (m : List (String × List String))
    (hnd : (m.map Prod.fst).Nodup) (k : String) (vs : List String)
    (h : objGet m k = some vs) :
    objGet (objAssign t (wireOfLink m)) k = some (.arr vs) := by
  rw [objGet_objAssign t _ (by rw [wireOfLink_keys]; exact hnd) k,
    objGet_wireOfLink, h]
  rfl

theorem Envelope.code_withCode (e : Envelope) (c : Int) : (e.withCode c).code = c := by
  cases e with
  | exc ex => rfl
  | resp r => cases r <;> rfl

theorem defaultTemplate_code (e : Envelope) : (defaultTemplate e).code = e.code := by
  cases e with
  | exc ex => rfl
  | resp r => rfl

/-- Whether the envelope takes the stream branch of `$sendResponse`
(`response instanceof StreamResponse || isReadable(content)`: in this
model only stream envelopes carry a readable). -/
def isStreamEnvelope : Envelope → Bool
  | .resp (.stream _ _) => true
  | _ => false

theorem isStreamEnvelope_withCode (e : Envelope) (c : Int) :
    isStreamEnvelope (e.withCode c) = isStreamEnvelope e := by
  cases e with
  | exc ex => rfl
  | resp r => cases r <;> rfl

/-- With no plugin override, the status line written is always the
(post-override) envelope's code, at every send variant. -/
theorem writeResponse_wire_code (codeOnly : List Int) (method url : String)
    (t₁ t₂ : Int) (e : Envelope) (mod : ModOptions) :
    (writeResponse codeOnly none method url t₁ t₂ e mod).wire.code = e.code := by
  cases e with
  | exc ex =>
    simp only [writeResponse]
    split <;> rfl
  | resp r =>
    cases r <;>
      first
        | rfl
        | (simp only [writeResponse]; split <;> rfl)

/-- With no plugin override, every key of the (duplicate-free,
lowercase-keyed) override record resolves to its override value in the
headers written, at every send variant. -/
theorem writeResponse_override_headers (codeOnly : List Int) (method url : String)
    (t₁ t₂ : Int) (e : Envelope) (mod : ModOptions)
    (hnd : (mod.headers.map Prod.fst).Nodup)
    (k : String) (vs : List String) (hkl : lowerString k = k)
    (h : objGet mod.headers k = some vs) :
    objGet (writeResponse codeOnly none method url t₁ t₂ e mod).wire.headers k
      = some (.arr vs) := by
  have hwire : ∀ t : WireHeaders, objGet (objAssign t (wireOfLink mod.headers)) k
      = some (.arr vs) := fun t => objGet_assign_wire t mod.headers hnd k vs h
  have hwl : objGet (wireOfLink mod.headers) k = some (.arr vs) := by
    rw [objGet_wireOfLink, h]
    rfl
  cases e with
  | exc ex =>
    simp only [writeResponse]
    split
    · exact hwl
    · exact hwire _
  | resp r =>
    cases r with
    | stream c hs =>
      have hkct : k ≠ "Content-Type" := by
        intro hk
        rw [hk] at hkl
        exact absurd hkl (by decide)
      show objGet
          (if (match objGet (objAssign (linkHeaders hs) (wireOfLink mod.headers))
                "content-type" with
              | some v => ! hdrValFirstTruthy v
              | none => true) = true then
            objSet (objAssign (linkHeaders hs) (wireOfLink mod.headers)) "Content-Type"
              (IncomingHeaders.HdrVal.str "application/octet-stream")
          else objAssign (linkHeaders hs) (wireOfLink mod.headers)) k
        = some (.arr vs)
      split
      · rw [objGet_objSet_ne _ _ _ _ hkct]
        exact hwire _
      · exact hwire _
    | sigil v c hs =>
      simp only [writeResponse]
      split
      · exact hwl
      · exact hwire _
    | raw v c hs =>
      simp only [writeResponse]
      split
      · exact hwl
      · exact hwire _
    | file v c hs =>
      simp only [writeResponse]
      split
      · exact hwl
      · exact hwire _
    | redirect c hs =>
      simp only [writeResponse]
      split
      · exact hwl
      · exact hwire _
    | modification c hs =>
      simp only [writeResponse]
      split
      · exact hwl
      · exact hwire _

/-- With no plugin override, every non-stream send emits exactly one
access-log record carrying the method, the raw URL, the (post-override)
envelope code and the elapsed time from the normalization sample. -/
theorem writeResponse_logs (codeOnly : List Int) (method url : String)
    (t₁ t₂ : Int) (e : Envelope) (mod : ModOptions)
    (hs : isStreamEnvelope e = false) :
    (writeResponse codeOnly none method url t₁ t₂ e mod).logs
      = [{ method := method, path := url, code := e.code, time := t₂ - t₁ }] := by
  cases e with
  | exc ex =>
    simp only [writeResponse]
    split <;> rfl
  | resp r =>
    cases r with
    | stream c hdrs => simp [isStreamEnvelope] at hs
    | sigil v c hdrs =>
      simp only [writeResponse]
      split <;> rfl
    | raw v c hdrs =>
      simp only [writeResponse]
      split <;> rfl
    | file v c hdrs =>
      simp only [writeResponse]
      split <;> rfl
    | redirect c hdrs =>
      simp only [writeResponse]
      split <;> rfl
    | modification c hdrs =>
      simp only [writeResponse]
      split <;> rfl

theorem mem_keys_of_objGet {α : Type} (m : List (String × α)) (k : String) (v : α)
    (h : objGet m k = some v) : k ∈ m.map Prod.fst := by
  induction m with
  | nil => simp [objGet] at h
  | cons p rest ih =>
    obtain ⟨k₀, v₀⟩ := p
    by_cases hk : k₀ = k
    · simp [hk]
    · simp only [objGet, if_neg hk] at h
      simp [ih h]

/-- C1 counterexample: the first middleware returns a mid-pipeline
modification carrying an `x-test` header override, the second returns a
response value.  The claim requires the accumulated override to reach
the wire for a response returned by a later middleware; but
`$incomingMessageHandlerImpl` sends a middleware-returned response with
an *empty* modification record (`this.$sendResponse(req, request,
response, res, {}, at)`), so the `x-test` header is absent from the
headers written. -/
theorem C1_counterexample :
    objGet (handleRequest [] (fun _ => none) "GET" "/" 0 0
        [ .ret (.resp (.modification 200 (IncomingHeaders.ofDict [("x-test", .str "1")]))),
          .ret (.resp (.sigil (.str "ok") 200 IncomingHeaders.empty)) ]
        none).wire.headers "x-test" = none := rfl

/-- C1 amended: the accumulated mid-pipeline overrides are passed to
`$sendResponse` for both the route-dispatch and the not-found origins,
and there — at every send variant (stream, raw, file, exception,
redirect, plain and code-only alike) — a (non-zero) override status code
replaces the envelope's status on the wire and every override header
(accumulated override records have unique, lowercased keys) wins on the
headers written; but a response value returned by a middleware itself is
sent with an empty modification record, dropping the accumulated
overrides. -/
theorem C1_modification_overrides (codeOnly : List Int) (method url : String)
    (t₁ t₂ : Int) (response : Envelope) (mod : ModOptions) (c : Int)
    (hmodc : mod.code = some c) (hc : c ≠ 0)
    (hkeys : ∀ k ∈ mod.headers.map Prod.fst, lowerString k = k)
    (hnd : (mod.headers.map Prod.fst).Nodup) :
    ((sendResponse codeOnly none method url t₁ t₂ response mod).wire.code = c) ∧
    (∀ (k : String) (vs : List String), objGet mod.headers k = some vs →
      objGet (sendResponse codeOnly none method url t₁ t₂ response mod).wire.headers k
        = some (.arr vs)) ∧
    (∀ (readFile : String → Option String) (acc : ModOptions)
        (route : Option HandlerRet),
      (runMiddlewares readFile acc [] route).mod = acc) := by
  have happly : applyModificationCode response mod = response.withCode c := by
    simp [applyModificationCode, hmodc, hc]
  refine ⟨?_, ?_, ?_⟩
  · rw [sendResponse, happly, writeResponse_wire_code, Envelope.code_withCode]
  · intro k vs h
    have hk := mem_keys_of_objGet mod.headers k vs h
    rw [sendResponse, happly]
    exact writeResponse_override_headers codeOnly method url t₁ t₂ _ mod hnd k vs
      (hkeys k hk) h
  · intro rf acc route
    cases route <;> rfl

/-- C1 witness. -/
theorem C1_witness :
    ((sendResponse [] none "GET" "/" 0 0 (.exc (NotFound.make []))
        { headers := [("x-powered-by", ["sigil"])], code := some 201 }).wire.code = 201) ∧
    (objGet (sendResponse [] none "GET" "/" 0 0 (.exc (NotFound.make []))
        { headers := [("x-powered-by", ["sigil"])], code := some 201 }).wire.headers
        "x-powered-by" = some (.arr ["sigil"])) := by
  have h := C1_modification_overrides [] "GET" "/" 0 0 (.exc (NotFound.make []))
    { headers := [("x-powered-by", ["sigil"])], code := some 201 } 201 rfl (by decide)
    (by
      intro k hk
      simp at hk
      subst hk
      decide)
    (by simp)
  exact ⟨h.1, h.2.1 "x-powered-by" ["sigil"] rfl⟩

/-- C6 counterexample: the claim requires exactly one access-log record
for every request reaching Send, including stream responses and plugin
pre-send overrides.  Both of those paths return before the logger call:
a stream send and a plugin-overridden send each emit zero access-log
records. -/
theorem C6_counterexample :
    ((sendResponse [] none "GET" "/file" 0 5
        (.resp (.stream 200 IncomingHeaders.empty)) {}).logs = []) ∧
    ((sendResponse [] (some (.sigil (.str "x") 200 IncomingHeaders.empty)) "GET" "/" 0 5
        (.resp (.sigil (.str "y") 200 IncomingHeaders.empty)) {}).logs = []) :=
  ⟨rfl, rfl⟩

/-- C6 amended: every *non-stream* send with no plugin override emits
exactly one access-log record — carrying the method, the raw request
URL, the final (post-override) status code actually written, and the
elapsed time measured from the sample taken after the plugin pre-hooks
at the start of normalization — and it is emitted before the wire write
rather than after; stream sends and plugin-pre-send-overridden sends
emit no access-log record at all. -/
theorem C6_access_log (codeOnly : List Int) (method url : String) (t₁ t₂ : Int)
    (response : Envelope) (mod : ModOptions)
    (hs : isStreamEnvelope response = false) :
    ((sendResponse codeOnly none method url t₁ t₂ response mod).logs
      = [{ method := method, path := url,
           code := (sendResponse codeOnly none method url t₁ t₂ response mod).wire.code,
           time := t₂ - t₁ }]) ∧
    (∀ pr : Resp,
      (sendResponse codeOnly (some pr) method url t₁ t₂ response mod).logs = []) ∧
    (∀ (st : Int) (hdrs : IncomingHeaders) (mod' : ModOptions),
      (sendResponse codeOnly none method url t₁ t₂
        (.resp (.stream st hdrs)) mod').logs = []) := by
  refine ⟨?_, ?_, ?_⟩
  · have hs' : isStreamEnvelope (applyModificationCode response mod) = false := by
      cases hmc : mod.code with
      | none => simpa [applyModificationCode, hmc] using hs
      | some c =>
        by_cases hc : c ≠ 0 <;>
          simp [applyModificationCode, hmc, hc, isStreamEnvelope_withCode, hs]
    rw [sendResponse, writeResponse_logs _ _ _ _ _ _ _ hs', writeResponse_wire_code]
  · intro pr
    rw [sendResponse]
    rfl
  · intro st hdrs mod'
    have hstream : ∃ c' h',
        applyModificationCode (.resp (.stream st hdrs)) mod' = .resp (.stream c' h') := by
      cases hmc : mod'.code with
      | none => exact ⟨st, hdrs, by simp [applyModificationCode, hmc]⟩
      | some c' =>
        by_cases hc' : c' ≠ 0
        · exact ⟨c', hdrs, by simp [applyModificationCode, hmc, hc', Envelope.withCode]⟩
        · exact ⟨st, hdrs, by simp [applyModificationCode, hmc, hc']⟩
    obtain ⟨c', h', heq⟩ := hstream
    rw [sendResponse, heq]
    rfl

/-- C6 witness: a 404 fallback send still emits its one access-log
record with code 404. -/
theorem C6_witness :
    (sendResponse [] none "GET" "/missing" 0 7 (.exc (NotFound.make [])) {}).logs
      = [{ method := "GET", path := "/missing", code := 404, time := 7 }] := by
  have h := (C6_access_log [] "GET" "/missing" 0 7 (.exc (NotFound.make [])) {} rfl).1
  simpa using h

/-- Whether a middleware step lets the pipeline continue: it returned
`undefined`, or its formatted return value is a mid-pipeline
modification request. -/
def continuesPipeline (readFile : String → Option String) : MwResult → Bool
  | .noop => true
  | .ret v =>
    match formatResponse readFile v with
    | .resp (.modification _ _) => true
    | _ => false

/-- C3: a middleware whose formatted return value is not a mid-pipeline
modification short-circuits the pipeline — the outcome is its formatted
value sent immediately, independent of every later middleware and of the
route table, and the route handler is never invoked; whereas when all
middleware results are modification requests (or `undefined`), a
modification merges its headers/status into the accumulated override set
and processing continues, so the handler is invoked exactly when the
route matches (and a miss falls through to the 404). -/
theorem C3_middleware_short_circuit (readFile : String → Option String) :
    (∀ (acc : ModOptions) (pre : List MwResult) (v : HandlerRet)
        (rest₁ rest₂ : List MwResult) (route₁ route₂ : Option HandlerRet),
      continuesPipeline readFile (.ret v) = false →
      runMiddlewares readFile acc (pre ++ .ret v :: rest₁) route₁
        = runMiddlewares readFile acc (pre ++ .ret v :: rest₂) route₂) ∧
    (∀ (acc : ModOptions) (pre : List MwResult) (v : HandlerRet)
        (rest : List MwResult) (route : Option HandlerRet),
      (∀ mw ∈ pre, continuesPipeline readFile mw = true) →
      continuesPipeline readFile (.ret v) = false →
      runMiddlewares readFile acc (pre ++ .ret v :: rest) route
        = { sent := formatResponse readFile v, mod := {}, handlerInvoked := false }) ∧
    (∀ (acc : ModOptions) (mws : List MwResult) (hres : HandlerRet),
      (∀ mw ∈ mws, continuesPipeline readFile mw = true) →
      (runMiddlewares readFile acc mws (some hres)).handlerInvoked = true ∧
      (runMiddlewares readFile acc mws (some hres)).sent
        = formatResponse readFile hres) ∧
    (∀ (acc : ModOptions) (mws : List MwResult),
      (∀ mw ∈ mws, continuesPipeline readFile mw = true) →
      (runMiddlewares readFile acc mws none).handlerInvoked = false ∧
      (runMiddlewares readFile acc mws none).sent = .exc (NotFound.make [])) ∧
    (∀ (acc : ModOptions) (v : HandlerRet) (rest : List MwResult)
        (route : Option HandlerRet) (c : Int) (h : IncomingHeaders),
      formatResponse readFile v = .resp (.modification c h) →
      runMiddlewares readFile acc (.ret v :: rest) route
        = runMiddlewares readFile
            { headers := objAssign acc.headers h.map, code := some c } rest route) := by
  refine ⟨?_, ?_, ?_, ?_, ?_⟩
  · intro acc pre v rest₁ rest₂ route₁ route₂ hstop
    induction pre generalizing acc with
    | nil =>
      simp only [List.nil_append, runMiddlewares]
      cases hfv : formatResponse readFile v with
      | exc e => simp [hfv]
      | resp r =>
        cases r with
        | modification c h => simp [continuesPipeline, hfv] at hstop
        | sigil v' c h => simp [hfv]
        | raw v' c h => simp [hfv]
        | file v' c h => simp [hfv]
        | stream c h => simp [hfv]
        | redirect c h => simp [hfv]
    | cons mw ps ih =>
      cases mw with
      | noop => simpa [runMiddlewares] using ih acc
      | ret u =>
        simp only [List.cons_append, runMiddlewares]
        cases hfu : formatResponse readFile u with
        | exc e => rfl
        | resp r =>
          cases r with
          | modification c h => exact ih _
          | sigil v' c h => rfl
          | raw v' c h => rfl
          | file v' c h => rfl
          | stream c h => rfl
          | redirect c h => rfl
  · intro acc pre v rest route hcont hstop
    induction pre generalizing acc with
    | nil =>
      simp only [List.nil_append, runMiddlewares]
      cases hfv : formatResponse readFile v with
      | exc e => simp [hfv]
      | resp r =>
        cases r with
        | modification c h => simp [continuesPipeline, hfv] at hstop
        | sigil v' c h => simp [hfv]
        | raw v' c h => simp [hfv]
        | file v' c h => simp [hfv]
        | stream c h => simp [hfv]
        | redirect c h => simp [hfv]
    | cons mw ps ih =>
      have hmw := hcont mw (List.mem_cons_self mw ps)
      have hps := fun q hq => hcont q (List.mem_cons_of_mem mw hq)
      cases mw with
      | noop => simpa [runMiddlewares] using ih acc hps
      | ret u =>
        simp only [List.cons_append, runMiddlewares]
        cases hfu : formatResponse readFile u with
        | exc e => simp [continuesPipeline, hfu] at hmw
        | resp r =>
          cases r with
          | modification c h => exact ih _ hps
          | sigil v' c h => simp [continuesPipeline, hfu] at hmw
          | raw v' c h => simp [continuesPipeline, hfu] at hmw
          | file v' c h => simp [continuesPipeline, hfu] at hmw
          | stream c h => simp [continuesPipeline, hfu] at hmw
          | redirect c h => simp [continuesPipeline, hfu] at hmw
  · intro acc mws hres hcont
    induction mws generalizing acc with
    | nil => exact ⟨rfl, rfl⟩
    | cons mw ps ih =>
      have hmw := hcont mw (List.mem_cons_self mw ps)
      have hps := fun q hq => hcont q (List.mem_cons_of_mem mw hq)
      cases mw with
      | noop => simpa [runMiddlewares] using ih acc hps
      | ret u =>
        simp only [runMiddlewares]
        cases hfu : formatResponse readFile u with
        | exc e => simp [continuesPipeline, hfu] at hmw
        | resp r =>
          cases r with
          | modification c h => exact ih _ hps
          | sigil v' c h => simp [continuesPipeline, hfu] at hmw
          | raw v' c h => simp [continuesPipeline, hfu] at hmw
          | file v' c h => simp [continuesPipeline, hfu] at hmw
          | stream c h => simp [continuesPipeline, hfu] at hmw
          | redirect c h => simp [continuesPipeline, hfu] at hmw
  · intro acc mws hcont
    induction mws generalizing acc with
    | nil => exact ⟨rfl, rfl⟩
    | cons mw ps ih =>
      have hmw := hcont mw (List.mem_cons_self mw ps)
      have hps := fun q hq => hcont q (List.mem_cons_of_mem mw hq)
      cases mw with
      | noop => simpa [runMiddlewares] using ih acc hps
      | ret u =>
        simp only [runMiddlewares]
        cases hfu : formatResponse readFile u with
        | exc e => simp [continuesPipeline, hfu] at hmw
        | resp r =>
          cases r with
          | modification c h => exact ih _ hps
          | sigil v' c h => simp [continuesPipeline, hfu] at hmw
          | raw v' c h => simp [continuesPipeline, hfu] at hmw
          | file v' c h => simp [continuesPipeline, hfu] at hmw
          | stream c h => simp [continuesPipeline, hfu] at hmw
          | redirect c h => simp [continuesPipeline, hfu] at hmw
  · intro acc v rest route c h hfv
    simp only [runMiddlewares]
    rw [hfv]

/-- C3 witness: a middleware returning a plain value short-circuits past
a registered route whose handler would have answered, and the handler
invocation flag stays false; a modification-only chain lets the handler
run. -/
theorem C3_witness :
    (runMiddlewares (fun _ => none) {}
        [.noop, .ret (.value (.str "from middleware"))]
        (some (.value (.str "from handler")))
      = { sent := .resp (.sigil (.str "from middleware") 200 IncomingHeaders.empty)
          mod := {}, handlerInvoked := false }) ∧
    ((runMiddlewares (fun _ => none) {}
        [.ret (.resp (.modification 201 (IncomingHeaders.ofDict [("x-a", .str "1")])))]
        (some (.value (.str "from handler")))).handlerInvoked = true) := by
  constructor
  · have h := (C3_middleware_short_circuit (fun _ => none)).2.1 {}
      [MwResult.noop] (.value (.str "from middleware"))
      [] (some (.value (.str "from handler")))
      (by intro mw hmw; simp at hmw; subst hmw; rfl)
      (by rfl)
    simpa using h
  · exact ((C3_middleware_short_circuit (fun _ => none)).2.2.1 {}
      [.ret (.resp (.modification 201 (IncomingHeaders.ofDict [("x-a", .str "1")])))]
      (.value (.str "from handler"))
      (by intro mw hmw; simp at hmw; subst hmw; rfl)).1

/-- C8 counterexample: the claim says the proxy-supplied IP headers
influence the derived client IP list only when proxy trust is explicitly
enabled.  With `trustProxy` disabled (as on the live pipeline, where
`$incomingMessageHandlerImpl` calls `processRequestContent(req)` with no
options), an `X-Forwarded-For` header still becomes the primary client
IP: `getClientIpInfo` has no trust input at all.  The claim requires
`ip = some "9.9.9.9"` (the socket address) here. -/
theorem C8_counterexample :
    processedHostAndIp
        [("x-forwarded-for", .str "1.2.3.4"), ("host", .str "example.com")]
        (some "9.9.9.9") false
      = some { host := "example.com"
               remoteAddress := { ip := some "1.2.3.4"
                                  ips := ["1.2.3.4", "9.9.9.9"] } } := rfl

/-- C8 amended: the *host* derivation honors proxy trust — with trust
disabled it ignores `Forwarded` and `X-Forwarded-Host` entirely and
falls back to the raw `Host` header — but the *client IP* derivation
consults `Forwarded` / `X-Forwarded-For` / `X-Real-IP` /
`CF-Connecting-IP` unconditionally (the function has no trust input);
only in their absence does it fall back to the socket address, from
which an IPv4-mapped `::ffff:` prefix is stripped. -/
theorem C8_host_and_ip (headers : List (String × IncomingHeaders.HdrVal))
    (socket : Option String) :
    (deriveHost headers false
      = deriveHost (objDelete (objDelete headers "forwarded") "x-forwarded-host") false) ∧
    (deriveHost headers false =
      (match objGet headers "host" with
       | some (.str h) => some h
       | some (.arr (h :: _)) => some h
       | _ => none)) ∧
    (∀ raw : String, objGet headers "forwarded" = none →
      objGet headers "x-forwarded-for" = some (.str raw) → raw ≠ "" →
      ((jsSplit ',' raw).map jsTrim).filter (· ≠ "") ≠ [] →
      (getClientIpInfo headers socket).ips.take
          ((((jsSplit ',' raw).map jsTrim).filter (· ≠ "")).length)
        = ((jsSplit ',' raw).map jsTrim).filter (· ≠ "")) ∧
    (∀ r : String, objGet headers "forwarded" = none →
      objGet headers "x-forwarded-for" = none →
      objGet headers "x-real-ip" = none →
      objGet headers "cf-connecting-ip" = none →
      socket = some r → r ≠ "" →
      (getClientIpInfo headers socket).ips
          = [if jsStartsWith r "::ffff:" then dropChars 7 r else r] ∧
      (getClientIpInfo headers socket).ip
          = some (if jsStartsWith r "::ffff:" then dropChars 7 r else r)) := by
  refine ⟨?_, ?_, ?_, ?_⟩
  · have h₁ : objGet (objDelete (objDelete headers "forwarded") "x-forwarded-host") "host"
        = objGet headers "host" := by
      rw [objGet_objDelete_ne _ _ _ (by decide), objGet_objDelete_ne _ _ _ (by decide)]
    simp [deriveHost, h₁]
  · simp [deriveHost]
  · intro raw hf hx hraw hparts
    have hcand := ipCandidates_xff headers raw hf hx hraw hparts
    obtain ⟨p, ps, hps⟩ := List.exists_cons_of_ne_nil hparts
    rw [hps] at hcand hparts ⊢
    cases socket with
    | none => simp [getClientIpInfo, hcand]
    | some r =>
      by_cases hr : r = ""
      · simp [getClientIpInfo, hcand, hr]
      · simp [getClientIpInfo, hcand, hr, List.take_left]
  · intro r hf hx hxr hcf hs hr
    subst hs
    have hcand : ipCandidates headers = none := by
      rw [ipCandidates]
      simp only [hf]
      rw [ipFallbackStep_miss _ _ _ _ hx, ipFallbackStep_miss _ _ _ _ hxr,
        ipFallbackStep_miss _ _ _ _ hcf]
    simp [getClientIpInfo, hcand, hr]

/-- C8 witness. -/
theorem C8_witness :
    (deriveHost [("forwarded", .str "host=proxy.example"), ("host", .str "internal")] false
      = some "internal") ∧
    ((getClientIpInfo [("x-forwarded-for", .str "1.2.3.4, 5.6.7.8")] (some "9.9.9.9")).ips.take 2
      = ["1.2.3.4", "5.6.7.8"]) ∧
    ((getClientIpInfo [] (some "::ffff:127.0.0.1")).ips = ["127.0.0.1"]) := by
  have h := C8_host_and_ip
    [("forwarded", .str "host=proxy.example"), ("host", .str "internal")] none
  have h₂ := C8_host_and_ip [("x-forwarded-for", .str "1.2.3.4, 5.6.7.8")] (some "9.9.9.9")
  have h₃ := C8_host_and_ip [] (some "::ffff:127.0.0.1")
  refine ⟨h.2.1.trans (by rfl), ?_, ?_⟩
  · have := h₂.2.2.1 "1.2.3.4, 5.6.7.8" rfl rfl (by decide) (by decide)
    simpa using this
  · exact (h₃.2.2.2 "::ffff:127.0.0.1" rfl rfl rfl rfl rfl (by decide)).1.trans (by rfl)

/-- C10 witness: build once with params `id=1`, call again with `id=2`,
get the `id=1` object back unchanged. -/
theorem C10_witness :
    createClientRequest (α := Nat) 7
      ⟨some { options := 7, params := [("id", "1")] }⟩ [("id", "2")]
      = ({ options := 7, params := [("id", "1")] },
         ⟨some { options := 7, params := [("id", "1")] }⟩) :=
  (C10_createClientRequest_cached 7
    ⟨some { options := 7, params := [("id", "1")] }⟩
    { options := 7, params := [("id", "1")] }
    [("id", "1")] [("id", "2")] rfl).2

end Sigil
